import Mathlib

/-!
Verification of the rhyming-worksheet generation engine.

The definitions below are shallow embeddings of the TypeScript/JavaScript
source of the repository: the sanitizer pipeline (`cleanWord`,
`sanitizeImageDataUrl`, `normalizeWordWorksheet`, `sanitizeSvg`), the error
classifier (`isRetryableModelError`, `humanizeGeminiError`), the model
fallback resolver (`generateWordWorksheet`), the bounded-concurrency
dispatcher (`mapWithConcurrency`), the full-generation handler composition
and the UI run-token state machine.  Untrusted JSON-like inputs are embedded
as the inductive `JValue`; JavaScript strings are embedded as Lean strings
operating on their character lists.
-/

set_option maxHeartbeats 1600000
set_option maxRecDepth 8192

namespace Rhymes

/-! ## JavaScript character classes -/

/-- The set matched by the JavaScript regex class backslash-s and removed by
`String.prototype.trim`: tab, LF, VT, FF, CR, space, NBSP, the Unicode
space separators, the line and paragraph separators, and the BOM. -/
def jsWs (c : Char) : Bool :=
  let n := c.toNat
  n = 0x9 || n = 0xa || n = 0xb || n = 0xc || n = 0xd || n = 0x20 ||
  n = 0xa0 || n = 0x1680 || (0x2000 ≤ n && n ≤ 0x200a) ||
  n = 0x2028 || n = 0x2029 || n = 0x202f || n = 0x205f ||
  n = 0x3000 || n = 0xfeff

/-- The JavaScript regex class backslash-d: the ASCII digits 0-9 only. -/
def isDigitJs (c : Char) : Bool :=
  0x30 ≤ c.toNat && c.toNat ≤ 0x39

/-- Unicode control characters (the C0 and C1 ranges plus DEL). -/
def isCtl (c : Char) : Bool :=
  c.toNat < 0x20 || (0x7f ≤ c.toNat && c.toNat ≤ 0x9f)

/-- Models the Unicode-aware regex class backslash-p-L (letters), restricted
to the scripts reachable by the application's language options: ASCII,
Latin-1 and extended Latin, Greek, Cyrillic, Hebrew, Arabic, Devanagari,
kana, CJK and Hangul ranges. -/
def uniLetter (c : Char) : Bool :=
  let n := c.toNat
  (0x41 ≤ n && n ≤ 0x5a) || (0x61 ≤ n && n ≤ 0x7a) ||
  (0xc0 ≤ n && n ≤ 0x24f && n ≠ 0xd7 && n ≠ 0xf7) ||
  (0x370 ≤ n && n ≤ 0x3ff && n ≠ 0x37e && n ≠ 0x3a2) ||
  (0x400 ≤ n && n ≤ 0x4ff) || (0x5d0 ≤ n && n ≤ 0x5ea) ||
  (0x620 ≤ n && n ≤ 0x64a) || (0x904 ≤ n && n ≤ 0x939) || n = 0x93d ||
  (0x958 ≤ n && n ≤ 0x961) || (0x970 ≤ n && n ≤ 0x97f) ||
  (0x3041 ≤ n && n ≤ 0x3096) || (0x30a1 ≤ n && n ≤ 0x30fa) ||
  (0x4e00 ≤ n && n ≤ 0x9fff) || (0xac00 ≤ n && n ≤ 0xd7a3)

/-- Models the Unicode-aware regex class backslash-p-M (combining marks),
restricted to the same scripts. -/
def uniMark (c : Char) : Bool :=
  let n := c.toNat
  (0x300 ≤ n && n ≤ 0x36f) || (0x483 ≤ n && n ≤ 0x489) ||
  (0x591 ≤ n && n ≤ 0x5bd) || (0x610 ≤ n && n ≤ 0x61a) ||
  (0x64b ≤ n && n ≤ 0x65f) || (0x900 ≤ n && n ≤ 0x903) ||
  (0x93a ≤ n && n ≤ 0x94f) || (0x951 ≤ n && n ≤ 0x957) ||
  (0x962 ≤ n && n ≤ 0x963) || (0x20d0 ≤ n && n ≤ 0x20ff)

/-- The character class kept by `cleanWord`'s second replace: letters,
combining marks, whitespace, apostrophe, right single quote, hyphen. -/
def keepClass (c : Char) : Bool :=
  uniLetter c || uniMark c || jsWs c || c = '\'' || c = '’' || c = '-'

/-! ## String helpers shared by the sanitizers -/

/-- Characters remaining after `.replace(/[\d_]/g, '')`. -/
def stripDigits (l : List Char) : List Char :=
  l.filter fun c => !(isDigitJs c || c = '_')

/-- Characters remaining after the Unicode-aware keep-class replace. -/
def stripClass (l : List Char) : List Char :=
  l.filter keepClass

/-- Worker for `collapseWs`; the flag records whether the previous character
was part of a whitespace run that has already emitted its single space. -/
def collapseGo : Bool → List Char → List Char
  | _, [] => []
  | inRun, c :: rest =>
    if jsWs c then
      if inRun then collapseGo true rest
      else ' ' :: collapseGo true rest
    else c :: collapseGo false rest

/-- `.replace(/\s+/g, ' ')`: every maximal whitespace run becomes one space. -/
def collapseWs (l : List Char) : List Char :=
  collapseGo false l

/-- Drop trailing JavaScript whitespace. -/
def dropTailWs (l : List Char) : List Char :=
  (l.reverse.dropWhile jsWs).reverse

/-- `String.prototype.trim` on character lists. -/
def trimChars (l : List Char) : List Char :=
  dropTailWs (l.dropWhile jsWs)

/-- `String.prototype.trim` on strings. -/
def jsTrim (s : String) : String :=
  String.mk (trimChars s.toList)

/-! ## Untrusted JSON-like values -/

/-- Embedding of untrusted JavaScript/JSON values flowing out of providers
and request bodies.  `null` also stands for `undefined` at lookup misses. -/
inductive JValue where
  | null
  | bool (b : Bool)
  | num (q : ℚ)
  | str (s : String)
  | arr (items : List JValue)
  | obj (fields : List (String × JValue))

/-- JavaScript truthiness of an embedded value. -/
def jTruthy : JValue → Bool
  | .null => false
  | .bool b => b
  | .num q => q ≠ 0
  | .str s => s ≠ ""
  | .arr _ => true
  | .obj _ => true

/-- Property lookup `o[key]`; a miss yields `none` (undefined), and on
duplicate keys the last entry wins as after `JSON.parse`. -/
def jGet : JValue → String → Option JValue
  | .obj fields, key => (fields.reverse.find? fun f => f.1 = key).map (·.2)
  | _, _ => none

/-! ## The word sanitizer `cleanWord` -/

/-- The four-stage pipeline applied by `cleanWord` to a string input:
trim, strip digits and underscores, strip everything outside the keep
class, collapse whitespace runs to single spaces. -/
def cleanedCore (l : List Char) : List Char :=
  collapseWs (stripClass (stripDigits (trimChars l)))

/-- `cleanWord` on a string input: the pipeline result, or the literal
fallback when it is empty. -/
def cleanWordStr (s : String) : String :=
  if cleanedCore s.toList = [] then "word" else String.mk (cleanedCore s.toList)

/-- `cleanWord(rawWord)`: non-string input yields the fallback directly. -/
def cleanWord : JValue → String
  | .str s => cleanWordStr s
  | _ => "word"

/-! ## Facts about the whitespace-collapsing pass -/

/-- Every whitespace character present in the collapsed output is the
single plain space emitted for its run. -/
def AllWsSpace (l : List Char) : Prop :=
  ∀ c ∈ l, jsWs c = true → c = ' '

/-- No two adjacent characters of the list are both whitespace. -/
def NoAdjWs (l : List Char) : Prop :=
  l.Chain' fun a b => ¬(jsWs a = true ∧ jsWs b = true)

theorem mem_collapseGo {c : Char} :
    ∀ (b : Bool) (l : List Char), c ∈ collapseGo b l →
      c = ' ' ∨ (c ∈ l ∧ jsWs c = false) := by
  intro b l
  induction l generalizing b with
  | nil => intro h; simp [collapseGo] at h
  | cons d rest ih =>
    intro h
    by_cases hd : jsWs d = true
    · cases b with
      | true =>
        simp [collapseGo, hd] at h
        rcases ih true h with h' | h'
        · exact Or.inl h'
        · exact Or.inr ⟨List.mem_cons_of_mem _ h'.1, h'.2⟩
      | false =>
        simp [collapseGo, hd] at h
        rcases h with h | h
        · exact Or.inl h
        · rcases ih true h with h' | h'
          · exact Or.inl h'
          · exact Or.inr ⟨List.mem_cons_of_mem _ h'.1, h'.2⟩
    · simp [collapseGo, hd] at h
      rcases h with h | h
      · subst h
        exact Or.inr ⟨List.mem_cons_self _ _, by simpa using hd⟩
      · rcases ih false h with h' | h'
        · exact Or.inl h'
        · exact Or.inr ⟨List.mem_cons_of_mem _ h'.1, h'.2⟩

theorem allWsSpace_collapseGo (b : Bool) (l : List Char) :
    AllWsSpace (collapseGo b l) := by
  intro c hc _
  rcases mem_collapseGo b l hc with h | h
  · exact h
  · exact absurd h.2 (by simp_all)

/-- The output of `collapseGo true` never starts with whitespace: the run
in progress swallows leading whitespace without emitting anything. -/
theorem head_collapseGo_true :
    ∀ (l : List Char) (c : Char) (rest : List Char),
      collapseGo true l = c :: rest → jsWs c = false := by
  intro l
  induction l with
  | nil => intro c rest h; simp [collapseGo] at h
  | cons d tail ih =>
    intro c rest h
    by_cases hd : jsWs d = true
    · simp [collapseGo, hd] at h
      exact ih c rest h
    · simp [collapseGo, hd] at h
      rw [← h.1]
      simpa using hd

theorem noAdjWs_collapseGo (b : Bool) (l : List Char) :
    NoAdjWs (collapseGo b l) := by
  induction l generalizing b with
  | nil => simp [collapseGo, NoAdjWs]
  | cons d tail ih =>
    by_cases hd : jsWs d = true
    · cases b with
      | true => simpa [collapseGo, hd] using ih true
      | false =>
        simp only [collapseGo, hd, if_true]
        rcases htail : collapseGo true tail with _ | ⟨c2, rest2⟩
        · simp [NoAdjWs]
        · have hc2 := head_collapseGo_true tail c2 rest2 htail
          have := ih true
          rw [htail] at this
          exact List.chain'_cons.mpr ⟨by simp [hc2], this⟩
    · simp only [collapseGo, hd, if_false, Bool.false_eq_true]
      rcases htail : collapseGo false tail with _ | ⟨c2, rest2⟩
      · simp [NoAdjWs]
      · have := ih false
        rw [htail] at this
        exact List.chain'_cons.mpr ⟨by simp [hd], this⟩

/-- When the head is not whitespace the run flag is irrelevant. -/
theorem collapseGo_true_of_headNotWs :
    ∀ (l : List Char), (∀ c ∈ l.head?, jsWs c = false) →
      collapseGo true l = collapseGo false l := by
  intro l h
  cases l with
  | nil => rfl
  | cons d tail =>
    have hd : jsWs d = false := h d (by simp)
    simp [collapseGo, hd]

/-- A list whose whitespace is single plain spaces, never adjacent, is a
fixed point of whitespace collapsing. -/
theorem collapseGo_fixpoint :
    ∀ (l : List Char), AllWsSpace l → NoAdjWs l → collapseGo false l = l := by
  intro l
  induction l with
  | nil => intro _ _; rfl
  | cons d tail ih =>
    intro hsp hadj
    have htail_sp : AllWsSpace tail := fun c hc => hsp c (List.mem_cons_of_mem _ hc)
    have htail_adj : NoAdjWs tail := (List.chain'_cons'.mp hadj).2
    by_cases hd : jsWs d = true
    · have hd' : d = ' ' := hsp d (List.mem_cons_self _ _) hd
      have hhead : ∀ c ∈ tail.head?, jsWs c = false := by
        intro c hc
        have := (List.chain'_cons'.mp hadj).1 c hc
        by_contra hcontra
        exact this ⟨hd, by simpa using hcontra⟩
      simp only [collapseGo, hd, if_true]
      rw [collapseGo_true_of_headNotWs tail hhead, ih htail_sp htail_adj, hd']
      simp
    · simp only [collapseGo, hd, if_false, Bool.false_eq_true]
      rw [ih htail_sp htail_adj]

/-! ## Facts about trimming -/

theorem mem_of_mem_trimChars {c : Char} {l : List Char} :
    c ∈ trimChars l → c ∈ l := by
  intro h
  unfold trimChars dropTailWs at h
  rw [List.mem_reverse] at h
  have h1 := (List.dropWhile_sublist jsWs (l := (l.dropWhile jsWs).reverse)).subset h
  rw [List.mem_reverse] at h1
  exact (List.dropWhile_sublist jsWs (l := l)).subset h1

theorem allWsSpace_trimChars {l : List Char} (h : AllWsSpace l) :
    AllWsSpace (trimChars l) :=
  fun c hc => h c (mem_of_mem_trimChars hc)

theorem noAdjWs_dropWhile {l : List Char} (h : NoAdjWs l) :
    NoAdjWs (l.dropWhile jsWs) :=
  List.Chain'.suffix h (List.dropWhile_suffix jsWs)

theorem noAdjWs_reverse {l : List Char} (h : NoAdjWs l) :
    NoAdjWs l.reverse := by
  unfold NoAdjWs at *
  rw [List.chain'_reverse]
  exact h.imp fun a b hab => fun hcon => hab ⟨hcon.2, hcon.1⟩

theorem noAdjWs_trimChars {l : List Char} (h : NoAdjWs l) :
    NoAdjWs (trimChars l) := by
  unfold trimChars dropTailWs
  exact noAdjWs_reverse (noAdjWs_dropWhile (noAdjWs_reverse (noAdjWs_dropWhile h)))

/-! ## Characterisation of cleaned output characters -/

/-- Every character of the cleaned pipeline output is either the single
space of a collapsed run or a kept non-whitespace character that survived
the digit and class strips. -/
theorem cleanedCore_chars {c : Char} {l : List Char} (h : c ∈ cleanedCore l) :
    c = ' ' ∨ (keepClass c = true ∧ jsWs c = false ∧
      isDigitJs c = false ∧ c ≠ '_') := by
  unfold cleanedCore collapseWs at h
  rcases mem_collapseGo false _ h with h' | h'
  · exact Or.inl h'
  · rcases h' with ⟨hmem, hws⟩
    unfold stripClass at hmem
    have hkeep := List.of_mem_filter hmem
    have hmem2 := List.mem_of_mem_filter hmem
    unfold stripDigits at hmem2
    have hdig := List.of_mem_filter hmem2
    simp only [Bool.not_eq_true', Bool.or_eq_false_iff] at hdig
    refine Or.inr ⟨hkeep, hws, hdig.1, ?_⟩
    intro hc
    subst hc
    simpa using hdig.2

theorem uniLetter_not_ctl {c : Char} (h : uniLetter c = true) :
    isCtl c = false := by
  unfold uniLetter at h
  unfold isCtl
  simp only [Bool.or_eq_true, Bool.and_eq_true, decide_eq_true_eq, ne_eq,
    decide_not, Bool.not_eq_true', decide_eq_false_iff_not] at h
  simp only [Bool.or_eq_false_iff, Bool.and_eq_false_iff, decide_eq_false_iff_not, not_lt,
    not_le]
  omega

theorem uniMark_not_ctl {c : Char} (h : uniMark c = true) :
    isCtl c = false := by
  unfold uniMark at h
  unfold isCtl
  simp only [Bool.or_eq_true, Bool.and_eq_true, decide_eq_true_eq] at h
  simp only [Bool.or_eq_false_iff, Bool.and_eq_false_iff, decide_eq_false_iff_not, not_lt,
    not_le]
  omega

theorem strMk_eq_empty {l : List Char} : String.mk l = "" ↔ l = [] := by
  constructor
  · intro h
    simpa using congrArg String.data h
  · intro h
    subst h
    rfl

theorem toList_strMk (l : List Char) : (String.mk l).toList = l := rfl

/-- Second pass of the pipeline on an already-cleaned character list:
the digit and class strips are no-ops and collapsing is a fixed point,
so only the leading trim can still act. -/
theorem cleanedCore_of_clean (y : List Char)
    (hchars : ∀ c ∈ y, c = ' ' ∨ (keepClass c = true ∧ jsWs c = false ∧
      isDigitJs c = false ∧ c ≠ '_'))
    (hsp : AllWsSpace y) (hadj : NoAdjWs y) :
    cleanedCore y = trimChars y := by
  unfold cleanedCore
  have hmem : ∀ c ∈ trimChars y, c ∈ y := fun c hc => mem_of_mem_trimChars hc
  have h1 : stripDigits (trimChars y) = trimChars y := by
    unfold stripDigits
    rw [List.filter_eq_self]
    intro c hc
    rcases hchars c (hmem c hc) with h | h
    · subst h; decide
    · simp [h.2.2.1, h.2.2.2]
  have h2 : stripClass (trimChars y) = trimChars y := by
    unfold stripClass
    rw [List.filter_eq_self]
    intro c hc
    rcases hchars c (hmem c hc) with h | h
    · subst h; decide
    · exact h.1
  rw [h1, h2]
  exact collapseGo_fixpoint _ (allWsSpace_trimChars hsp) (noAdjWs_trimChars hadj)

/-- C7 (amended).  For every input value, `cleanWord` returns a non-empty
string containing no digit, no underscore and no control character;
non-textual input and input that cleans to empty both yield the literal
fallback "word".  `cleanWord` is, however, only idempotent up to a final
trim: a second application returns the trimmed first result (or the
fallback when the first result was pure whitespace), because stripping a
digit or symbol can expose boundary whitespace that the single leading
trim has already missed. -/
theorem cleanWord_spec (v : JValue) :
    cleanWord v ≠ "" ∧
    (∀ c ∈ (cleanWord v).toList, isDigitJs c = false ∧ c ≠ '_' ∧ isCtl c = false) ∧
    ((∀ s, v ≠ .str s) → cleanWord v = "word") ∧
    (∀ s, v = .str s → cleanedCore s.toList = [] → cleanWord v = "word") ∧
    cleanWord (.str (cleanWord v)) =
      (if jsTrim (cleanWord v) = "" then "word" else jsTrim (cleanWord v)) := by
  cases v with
  | str s =>
    by_cases hempty : cleanedCore s.toList = []
    · have hw : cleanWord (.str s) = "word" := by
        show cleanWordStr s = "word"
        unfold cleanWordStr
        rw [if_pos hempty]
      rw [hw]
      exact ⟨by decide, by decide, fun _ => rfl, fun _ _ _ => rfl, by decide⟩
    · have hw : cleanWord (.str s) = String.mk (cleanedCore s.toList) := by
        show cleanWordStr s = _
        unfold cleanWordStr
        rw [if_neg hempty]
      have hchars : ∀ c ∈ cleanedCore s.toList, c = ' ' ∨ (keepClass c = true ∧
          jsWs c = false ∧ isDigitJs c = false ∧ c ≠ '_') :=
        fun _ hc => cleanedCore_chars hc
      have hsp : AllWsSpace (cleanedCore s.toList) := allWsSpace_collapseGo false _
      have hadj : NoAdjWs (cleanedCore s.toList) := noAdjWs_collapseGo false _
      rw [hw]
      refine ⟨?_, ?_, fun h => absurd rfl (h s),
        fun s2 heq h => by injection heq with h2; subst h2; exact absurd h hempty, ?_⟩
      · intro h
        exact hempty (strMk_eq_empty.mp h)
      · intro c hc
        rw [toList_strMk] at hc
        rcases hchars c hc with h | h
        · subst h
          exact ⟨by decide, by decide, by decide⟩
        · refine ⟨h.2.2.1, h.2.2.2, ?_⟩
          have hk := h.1
          unfold keepClass at hk
          simp only [Bool.or_eq_true, decide_eq_true_eq] at hk
          rcases hk with ((((hl | hm) | hws) | hq) | hq) | hq
          · exact uniLetter_not_ctl hl
          · exact uniMark_not_ctl hm
          · rw [h.2.1] at hws; exact absurd hws (by simp)
          · subst hq; decide
          · subst hq; decide
          · subst hq; decide
      · show cleanWordStr (String.mk (cleanedCore s.toList)) = _
        have hcc := cleanedCore_of_clean _ hchars hsp hadj
        unfold cleanWordStr jsTrim
        rw [toList_strMk, hcc]
        by_cases ht : trimChars (cleanedCore s.toList) = []
        · simp [ht, strMk_eq_empty]
        · simp [ht, strMk_eq_empty]
  | null =>
    exact ⟨by decide, by decide, fun _ => rfl, fun _ h _ => JValue.noConfusion h, by decide⟩
  | bool b =>
    rw [show cleanWord (JValue.bool b) = "word" from rfl]
    exact ⟨by decide, by decide, fun _ => rfl, fun _ _ _ => rfl, by decide⟩
  | num q =>
    rw [show cleanWord (JValue.num q) = "word" from rfl]
    exact ⟨by decide, by decide, fun _ => rfl, fun _ _ _ => rfl, by decide⟩
  | arr items =>
    rw [show cleanWord (JValue.arr items) = "word" from rfl]
    exact ⟨by decide, by decide, fun _ => rfl, fun _ _ _ => rfl, by decide⟩
  | obj fields =>
    rw [show cleanWord (JValue.obj fields) = "word" from rfl]
    exact ⟨by decide, by decide, fun _ => rfl, fun _ _ _ => rfl, by decide⟩

/-- C7 counterexample: `cleanWord` is not idempotent as claimed.  On the
input "1 a" the digit strip exposes a leading space, so the first
application returns " a" while the second returns "a". -/
theorem cleanWord_not_idempotent :
    cleanWord (.str (cleanWord (.str "1 a"))) ≠ cleanWord (.str "1 a") := by
  decide

/-- C7 witness: the amended theorem evaluated at concrete inputs. -/
theorem cleanWord_spec_witness :
    cleanWord (.str " cat ") ≠ "" ∧
    (isDigitJs 'c' = false ∧ 'c' ≠ '_' ∧ isCtl 'c' = false) ∧
    cleanWord (.str "123") = "word" ∧
    cleanWord (.str (cleanWord (.str " cat "))) =
      (if jsTrim (cleanWord (.str " cat ")) = "" then "word"
       else jsTrim (cleanWord (.str " cat "))) :=
  ⟨(cleanWord_spec (.str " cat ")).1,
   (cleanWord_spec (.str " cat ")).2.1 'c' (by decide),
   (cleanWord_spec (.str "123")).2.2.2.1 "123" rfl (by decide),
   (cleanWord_spec (.str " cat ")).2.2.2.2⟩

/-! ## The image reference sanitizer `sanitizeImageDataUrl` -/

/-- Strip a literal from the front of a character list, comparing
case-insensitively as the source regexes do under their i flag. -/
def stripLitCI : List Char → List Char → Option (List Char)
  | [], rest => some rest
  | _ :: _, [] => none
  | p :: ps, c :: cs => if p.toLower = c.toLower then stripLitCI ps cs else none

/-- The payload class of the data-reference regex: base64 characters,
padding, and (because of the trailing backslash-s in the class) embedded
whitespace; case-insensitive. -/
def base64Class (c : Char) : Bool :=
  ('a' ≤ c && c ≤ 'z') || ('A' ≤ c && c ≤ 'Z') || ('0' ≤ c && c ≤ '9') ||
  c = '+' || c = '/' || c = '=' || jsWs c

/-- One media-type alternative of the data-reference regex followed by the
";base64," separator and a non-empty payload running to the end. -/
def dataTypeTail (t : String) (l : List Char) : Bool :=
  match stripLitCI t.toList l with
  | some r1 =>
    match stripLitCI ";base64,".toList r1 with
    | some payload => payload ≠ [] && payload.all base64Class
    | none => false
  | none => false

/-- The anchored regex for inline image data references. -/
def imageDataRe (l : List Char) : Bool :=
  match stripLitCI "data:image/".toList l with
  | some rest =>
    dataTypeTail "png" rest || dataTypeTail "jpeg" rest ||
    dataTypeTail "jpg" rest || dataTypeTail "webp" rest
  | none => false

/-- The anchored regex for absolute http or https URLs without whitespace. -/
def httpRe (l : List Char) : Bool :=
  match stripLitCI "http".toList l with
  | none => false
  | some rest =>
    let rest2 := match rest with
      | c :: cs => if c.toLower = 's' then cs else rest
      | [] => rest
    match stripLitCI "://".toList rest2 with
    | some tail => tail ≠ [] && tail.all fun c => !jsWs c
    | none => false

/-- The section-6 image-reference grammar, which is exactly the pair of
regexes the sanitizer tests. -/
def imageRefGrammar (s : String) : Bool :=
  imageDataRe s.toList || httpRe s.toList

/-- The string branch of `sanitizeImageDataUrl`: trim, reject empty, then
accept only values matching one of the two anchored regexes. -/
def sanitizeImageStr (s : String) : String :=
  if jsTrim s = "" then ""
  else if imageDataRe (jsTrim s).toList then jsTrim s
  else if httpRe (jsTrim s).toList then jsTrim s
  else ""

/-- `sanitizeImageDataUrl(rawValue)`: non-string input yields empty. -/
def sanitizeImageDataUrl : JValue → String
  | .str s => sanitizeImageStr s
  | _ => ""

/-- C8 (amended).  Every output of `sanitizeImageDataUrl` is either empty
or matches the section-6 grammar; and the sanitizer returns a
grammar-valid input unchanged provided the input carries no surrounding
whitespace (it equals its own trim).  Unchanged return on all
grammar-valid input fails, because the grammar's payload class admits
trailing whitespace which the sanitizer trims away. -/
theorem sanitizeImageDataUrl_spec :
    (∀ v, sanitizeImageDataUrl v = "" ∨
      imageRefGrammar (sanitizeImageDataUrl v) = true) ∧
    (∀ s, imageRefGrammar s = true → jsTrim s = s →
      sanitizeImageDataUrl (.str s) = s) := by
  constructor
  · intro v
    cases v with
    | str s =>
      show sanitizeImageStr s = "" ∨ imageRefGrammar (sanitizeImageStr s) = true
      unfold sanitizeImageStr
      by_cases h0 : jsTrim s = ""
      · simp [h0]
      · by_cases h1 : imageDataRe (jsTrim s).toList = true
        · rw [if_neg h0, if_pos h1]
          exact Or.inr (by unfold imageRefGrammar; rw [h1]; simp)
        · by_cases h2 : httpRe (jsTrim s).toList = true
          · rw [if_neg h0, if_neg (by simpa using h1), if_pos h2]
            exact Or.inr (by unfold imageRefGrammar; rw [h2]; simp)
          · rw [if_neg h0, if_neg (by simpa using h1), if_neg (by simpa using h2)]
            exact Or.inl rfl
    | null => exact Or.inl rfl
    | bool b => exact Or.inl rfl
    | num q => exact Or.inl rfl
    | arr items => exact Or.inl rfl
    | obj fields => exact Or.inl rfl
  · intro s hg ht
    have hne : s ≠ "" := by
      intro h
      subst h
      exact absurd hg (by decide)
    show sanitizeImageStr s = s
    unfold sanitizeImageStr
    rw [ht, if_neg hne]
    unfold imageRefGrammar at hg
    rcases Bool.or_eq_true_iff.mp hg with h1 | h2
    · rw [if_pos h1]
    · by_cases h1 : imageDataRe s.toList = true
      · rw [if_pos h1]
      · rw [if_neg (by simpa using h1), if_pos h2]

/-- C8 counterexample: a value accepted by the grammar (its payload ends
with a newline, allowed by the payload class) is not returned unchanged:
the sanitizer trims the newline away. -/
theorem sanitizeImageDataUrl_changes_valid :
    imageRefGrammar "data:image/png;base64,AB\n" = true ∧
    sanitizeImageDataUrl (.str "data:image/png;base64,AB\n") ≠
      "data:image/png;base64,AB\n" := by
  exact ⟨by decide, by decide⟩

/-- C8 witness: the amended theorem evaluated at concrete inputs. -/
theorem sanitizeImageDataUrl_spec_witness :
    sanitizeImageDataUrl (.str "https://example.com/cat.png") =
      "https://example.com/cat.png" ∧
    (sanitizeImageDataUrl (.num 3) = "" ∨
      imageRefGrammar (sanitizeImageDataUrl (.num 3)) = true) :=
  ⟨sanitizeImageDataUrl_spec.2 "https://example.com/cat.png" (by decide) (by decide),
   sanitizeImageDataUrl_spec.1 (.num 3)⟩

/-! ## JavaScript number coercion -/

/-- Digits to a natural number. -/
def digitsToNat (l : List Char) : Nat :=
  l.foldl (fun acc c => acc * 10 + (c.toNat - 48)) 0

/-- Exponent part of a JS numeric literal: optional sign then digits. -/
def jsExpPart (sign base : ℚ) (l : List Char) : Option ℚ :=
  let p : ℤ × List Char :=
    match l with
    | '-' :: rest => (-1, rest)
    | '+' :: rest => (1, rest)
    | _ => (1, l)
  if p.2 ≠ [] && p.2.all isDigitJs then
    some (sign * base * (10 : ℚ) ^ (p.1 * (digitsToNat p.2 : ℤ)))
  else none

/-- A trimmed, non-empty decimal StringNumericLiteral: optional sign,
integer and/or fraction digits, optional exponent. -/
def jsDecimalFrom (l : List Char) : Option ℚ :=
  let p : ℚ × List Char :=
    match l with
    | '-' :: rest => (-1, rest)
    | '+' :: rest => (1, rest)
    | _ => (1, l)
  let ip := p.2.takeWhile isDigitJs
  let r1 := p.2.dropWhile isDigitJs
  let q : List Char × List Char :=
    match r1 with
    | '.' :: rest => (rest.takeWhile isDigitJs, rest.dropWhile isDigitJs)
    | _ => ([], r1)
  if ip = [] && q.1 = [] then none
  else
    let base : ℚ := (digitsToNat ip : ℚ) + (digitsToNat q.1 : ℚ) / ((10 : ℚ) ^ q.1.length)
    match q.2 with
    | [] => some (p.1 * base)
    | 'e' :: rest => jsExpPart p.1 base rest
    | 'E' :: rest => jsExpPart p.1 base rest
    | _ => none

/-- Value of one hexadecimal digit. -/
def hexVal (c : Char) : Option Nat :=
  if 0x30 ≤ c.toNat && c.toNat ≤ 0x39 then some (c.toNat - 0x30)
  else if 0x61 ≤ c.toNat && c.toNat ≤ 0x66 then some (c.toNat - 0x57)
  else if 0x41 ≤ c.toNat && c.toNat ≤ 0x46 then some (c.toNat - 0x37)
  else none

/-- Value of one octal digit. -/
def octVal (c : Char) : Option Nat :=
  if 0x30 ≤ c.toNat && c.toNat ≤ 0x37 then some (c.toNat - 0x30) else none

/-- Value of one binary digit. -/
def binVal (c : Char) : Option Nat :=
  if c = '0' then some 0 else if c = '1' then some 1 else none

/-- Accumulate the digits of a non-decimal integer literal; any character
outside the base's digit class makes the whole literal NaN. -/
def baseDigitsGo (digitVal : Char → Option Nat) (base acc : Nat) :
    List Char → Option Nat
  | [] => some acc
  | c :: rest =>
    match digitVal c with
    | some v => baseDigitsGo digitVal base (acc * base + v) rest
    | none => none

/-- The body of a 0x / 0o / 0b NonDecimalIntegerLiteral: one or more
digits of the base, with no sign, fraction or exponent. -/
def nonDecimalFrom (digitVal : Char → Option Nat) (base : Nat)
    (l : List Char) : Option ℚ :=
  if l = [] then none
  else
    match baseDigitsGo digitVal base 0 l with
    | some n => some (n : ℚ)
    | none => none

/-- A trimmed, non-empty JS StringNumericLiteral: a 0x / 0o / 0b
non-decimal integer form (unsigned, as the grammar requires), or a signed
decimal literal.  `none` stands for NaN; the Infinity literals are also
mapped to `none`, which is exact at every use site, since each one either
guards with Number.isFinite or tests membership in a finite set of small
integers, and both treat NaN and the infinities alike. -/
def jsNumFrom (l : List Char) : Option ℚ :=
  match l with
  | '0' :: c :: rest =>
    if c = 'x' || c = 'X' then nonDecimalFrom hexVal 16 rest
    else if c = 'o' || c = 'O' then nonDecimalFrom octVal 8 rest
    else if c = 'b' || c = 'B' then nonDecimalFrom binVal 2 rest
    else jsDecimalFrom l
  | _ => jsDecimalFrom l

/-- `Number(s)` for strings: trim, empty is zero, else parse the literal.
`none` stands for NaN. -/
def jsNumberStr (s : String) : Option ℚ :=
  match trimChars s.toList with
  | [] => some 0
  | l => jsNumFrom l

structure WordIll where
  word : String
  imageDataUrl : String
  mimeType : String
deriving DecidableEq, Repr

structure RhymePair where
  rhymeSound : String
  left : WordIll
  right : WordIll
deriving DecidableEq, Repr

structure Worksheet where
  title : String
  instruction : String
  language : String
  pairs : List RhymePair
deriving DecidableEq, Repr

/-- Truthiness of a possibly-undefined value. -/
def jTruthyOpt : Option JValue → Bool
  | some v => jTruthy v
  | none => false

/-- JS `a || b` on possibly-undefined values. -/
def jOr (a b : Option JValue) : Option JValue :=
  if jTruthyOpt a then a else b

/-- JS `a && a.key` on a possibly-undefined value. -/
def jAndGet (a : Option JValue) (key : String) : Option JValue :=
  match a with
  | some v => if jTruthy v then jGet v key else some v
  | none => none

/-- `cleanWord` applied to a possibly-undefined value. -/
def cleanWordOpt : Option JValue → String
  | some v => cleanWord v
  | none => "word"

/-- The repeated pattern `typeof x === 'string' && x.trim() ? x.trim() :
dflt`. -/
def strOrDefault (v : Option JValue) (dflt : String) : String :=
  match v with
  | some (.str s) => if jsTrim s = "" then dflt else jsTrim s
  | _ => dflt

/-- The check `!candidate || typeof candidate !== 'object'`: only truthy
object-typed values pass, which in the embedding are objects and arrays. -/
def isObjLike : JValue → Bool
  | .obj _ => true
  | .arr _ => true
  | _ => false

/-- One entry of the pairs array as normalized by `normalizeWordWorksheet`
(the text-only worksheet: image fields are absent, embedded as empty). -/
def normalizePairEntry (idx : Nat) (entry : JValue) : RhymePair :=
  let pairV : JValue := if jTruthy entry then entry else .obj []
  { rhymeSound := strOrDefault (jGet pairV "rhymeSound") ("pair " ++ toString (idx + 1)),
    left := { word := cleanWordOpt (jOr (jGet pairV "leftWord") (jAndGet (jGet pairV "left") "word")),
              imageDataUrl := "", mimeType := "" },
    right := { word := cleanWordOpt (jOr (jGet pairV "rightWord") (jAndGet (jGet pairV "right") "word")),
               imageDataUrl := "", mimeType := "" } }

/-- `normalizeWordWorksheet(candidate, language, pairCount)` from the
server source: rejects non-objects and too-few pairs, keeps exactly the
first `pairCount` entries, and fills defaults for missing header fields. -/
def rawPairsOf (candidate : JValue) : List JValue :=
  match jGet candidate "pairs" with
  | some (.arr items) => items
  | _ => []

def normalizeWordWorksheet (candidate : JValue) (language : String)
    (pairCount : Nat) : Except String Worksheet :=
  if !(isObjLike candidate) then
    .error "Model returned an unexpected worksheet format."
  else if (rawPairsOf candidate).length < pairCount then
    .error ("Model returned only " ++ toString (rawPairsOf candidate).length ++
      " pairs. Try regenerate.")
  else
    .ok { title := strOrDefault (jGet candidate "title") (language ++ " Rhyming Match Sheet"),
          instruction := strOrDefault (jGet candidate "instruction")
            "Draw a line between words that rhyme.",
          language := strOrDefault (jGet candidate "language") language,
          pairs := ((rawPairsOf candidate).take pairCount).enum.map fun p =>
            normalizePairEntry p.1 p.2 }

/-- A well-formed provider payload used to exercise the normalizer. -/
def demoWorksheetJson : JValue := .obj [
  ("title", .str "Farm Rhymes"),
  ("instruction", .str "Match the rhymes."),
  ("language", .str "English"),
  ("pairs", .arr [
    .obj [("rhymeSound", .str "-at"), ("leftWord", .str "cat"), ("rightWord", .str "hat")],
    .obj [("rhymeSound", .str "-og"), ("leftWord", .str "dog"), ("rightWord", .str "frog")],
    .obj [("rhymeSound", .str "-un"), ("leftWord", .str "sun"), ("rightWord", .str "bun")],
    .obj [("rhymeSound", .str "-ig"), ("leftWord", .str "pig"), ("rightWord", .str "wig")],
    .obj [("rhymeSound", .str "-ake"), ("leftWord", .str "cake"), ("rightWord", .str "snake")]])]

/-- The worksheet the normalizer produces from `demoWorksheetJson` at the
default pair count. -/
def demoNormalized : Worksheet :=
  { title := "Farm Rhymes",
    instruction := "Match the rhymes.",
    language := "English",
    pairs := [
      { rhymeSound := "-at",
        left := { word := "cat", imageDataUrl := "", mimeType := "" },
        right := { word := "hat", imageDataUrl := "", mimeType := "" } },
      { rhymeSound := "-og",
        left := { word := "dog", imageDataUrl := "", mimeType := "" },
        right := { word := "frog", imageDataUrl := "", mimeType := "" } },
      { rhymeSound := "-un",
        left := { word := "sun", imageDataUrl := "", mimeType := "" },
        right := { word := "bun", imageDataUrl := "", mimeType := "" } },
      { rhymeSound := "-ig",
        left := { word := "pig", imageDataUrl := "", mimeType := "" },
        right := { word := "wig", imageDataUrl := "", mimeType := "" } },
      { rhymeSound := "-ake",
        left := { word := "cake", imageDataUrl := "", mimeType := "" },
        right := { word := "snake", imageDataUrl := "", mimeType := "" } }] }

/-- Leading match of a pattern against a character list. -/
def leadMatch : List Char → List Char → Bool
  | [], _ => true
  | _ :: _, [] => false
  | a :: as, b :: bs => a = b && leadMatch as bs

/-- Substring search: the pattern occurs starting at some position. -/
def subSearch (needle : List Char) : List Char → Bool
  | [] => leadMatch needle []
  | c :: rest => leadMatch needle (c :: rest) || subSearch needle rest

/-- Literal-alternative regex test: the needle occurs in the haystack. -/
def strContains (hay needle : String) : Bool :=
  subSearch needle.toList hay.toList

/-- Strip an exact literal from the front. -/
def stripLit : List Char → List Char → Option (List Char)
  | [], rest => some rest
  | _ :: _, [] => none
  | p :: ps, c :: cs => if p = c then stripLit ps cs else none

/-- The regex piece limit-colon-whitespace-star-zero tested at one
position. -/
def limitZeroHere (l : List Char) : Bool :=
  match stripLit "limit:".toList l with
  | some rest =>
    match rest.dropWhile jsWs with
    | '0' :: _ => true
    | _ => false
  | none => false

/-- The regex piece limit-colon-whitespace-star-zero tested anywhere. -/
def limitZero : List Char → Bool
  | [] => false
  | c :: rest => limitZeroHere (c :: rest) || limitZero rest

/-- `String.prototype.toLowerCase` restricted to the ASCII range that the
classifier's signature literals use. -/
def lowerStr (s : String) : String :=
  String.mk (s.toList.map Char.toLower)

/-- The always-fatal authorization/billing/permission signatures. -/
def authFatalSig (lower : String) : Bool :=
  strContains lower "api key" || strContains lower "unauthorized" ||
  strContains lower "forbidden" || strContains lower "permission denied" ||
  strContains lower "billing account"

/-- The transient signatures of the final alternation. -/
def transientSig (lower : String) : Bool :=
  strContains lower "not found" || strContains lower "not supported" ||
  strContains lower "unsupported" || strContains lower "quota exceeded" ||
  strContains lower "rate limit" || strContains lower "resource exhausted" ||
  limitZero lower.toList || strContains lower "retry in"

/-- `isRetryableModelError(status, errorMessage)`: auth/billing/permission
messages are fatal regardless of status; any status of 500 or more is
retryable; otherwise retryable only on a transient signature. -/
def isRetryableModelError (status : Nat) (errorMessage : String) : Bool :=
  let lower := lowerStr errorMessage
  if authFatalSig lower then false
  else if 500 ≤ status then true
  else transientSig lower

/-! ## Retry-delay extraction and error humanization -/

/-- The digits-and-dots capture class of the retry regex. -/
def retryTokClass (c : Char) : Bool :=
  isDigitJs c || c = '.'

/-- The pattern retry-in, optional whitespace, captured digits-and-dots,
then the letter s, tested at one position (case-insensitively). -/
def retryTokenHere (l : List Char) : Option (List Char) :=
  match stripLitCI "retry in".toList l with
  | none => none
  | some rest =>
    let rest2 := rest.dropWhile jsWs
    let tok := rest2.takeWhile retryTokClass
    if tok = [] then none
    else
      match rest2.dropWhile retryTokClass with
      | c :: _ => if c.toLower = 's' then some tok else none
      | [] => none

/-- First match of the retry pattern anywhere in the message. -/
def findRetryToken : List Char → Option (List Char)
  | [] => none
  | c :: rest =>
    match retryTokenHere (c :: rest) with
    | some tok => some tok
    | none => findRetryToken rest

/-- `parseRetrySeconds(errorMessage)`: the advisory delay in seconds,
ceiling of the captured number, or unknown when absent or non-finite. -/
def parseRetrySeconds (errorMessage : String) : Option ℤ :=
  match findRetryToken errorMessage.toList with
  | none => none
  | some tok =>
    match jsNumFrom tok with
    | none => none
    | some q => some ⌈q⌉

/-- `triedModels.join(', ')`. -/
def joinModels (models : List String) : String :=
  String.intercalate ", " models

/-- The trailing diagnostic naming every tried model, shared by all
branches of `humanizeGeminiError`. -/
def triedModelsSuffix (models : List String) : String :=
  "Tried models: " ++ joinModels models ++ "."

/-- `humanizeGeminiError(errorMessage, triedModels)` from the server
source. -/
def humanizeGeminiError (errorMessage : String) (triedModels : List String) : String :=
  let lower := lowerStr errorMessage
  if limitZero lower.toList then
    "The API project for this key has model entitlement set to 0 (\"limit: 0\"). This is usually a project/billing-tier configuration issue, not normal daily usage. Try model gemini-2.5-flash and gemini-2.5-flash-image, or enable paid access on the same Google project as this key. " ++
      triedModelsSuffix triedModels
  else if strContains lower "quota exceeded" || strContains lower "rate limit" ||
      strContains lower "resource exhausted" then
    match parseRetrySeconds errorMessage with
    | some n =>
      "Gemini throttled this request. Retry in about " ++ toString n ++ "s. " ++
        triedModelsSuffix triedModels
    | none => "Gemini throttled this request. " ++ triedModelsSuffix triedModels
  else
    (if errorMessage = "" then "Unknown Gemini API error." else errorMessage) ++ " " ++
      triedModelsSuffix triedModels

/-! ## Model fallback resolver -/

/-- What one provider call can produce, as seen by the candidate loop:
a non-ok HTTP response with its extracted error message, an ok response
whose text extraction or JSON parse throws inside the try block, or an ok
response with a parsed worksheet JSON. -/
inductive CallOutcome where
  | httpError (status : Nat) (message : String)
  | badPayload (message : String)
  | parsed (json : JValue)

/-- `Success(value, usedModel)` or `Failure(message)` (a throw in the
source). -/
inductive GWResult where
  | success (worksheet : Worksheet) (usedModel : String)
  | failure (message : String)
deriving DecidableEq

/-- The candidate loop of `generateWordWorksheet`.  The second component
of the result lists the models actually called, in order.  On a non-ok
response a retryable classification records the message and falls through
to the next candidate while a fatal one aborts with a single-model
diagnostic; an ok response returns success unless its payload fails to
normalize, which also falls through. -/
def generateWordWorksheetGo (call : String → CallOutcome) (language : String)
    (pairCount : Nat) (allModels : List String) :
    List String → String → GWResult × List String
  | [], lastMsg => (.failure (humanizeGeminiError lastMsg allModels), [])
  | m :: rest, _lastMsg =>
    match call m with
    | .httpError status msg =>
      if isRetryableModelError status msg then
        let r := generateWordWorksheetGo call language pairCount allModels rest msg
        (r.1, m :: r.2)
      else
        (.failure (humanizeGeminiError msg [m]), [m])
    | .badPayload msg =>
      let r := generateWordWorksheetGo call language pairCount allModels rest msg
      (r.1, m :: r.2)
    | .parsed j =>
      match normalizeWordWorksheet j language pairCount with
      | .ok w => (.success w m, [m])
      | .error e =>
        let r := generateWordWorksheetGo call language pairCount allModels rest e
        (r.1, m :: r.2)

/-- `generateWordWorksheet` walks the whole candidate list starting from
an empty last error. -/
def generateWordWorksheet (call : String → CallOutcome) (language : String)
    (pairCount : Nat) (candidateModels : List String) : GWResult × List String :=
  generateWordWorksheetGo call language pairCount candidateModels candidateModels ""

/-- C2.  When the provider call for the first candidate fails with an
authorization/billing/permission signature — fatal regardless of HTTP
status, including statuses of 500 and above — the resolver returns a
Failure after exactly one call, never invoking any remaining candidate,
and its diagnostic names only that single tried model. -/
theorem fatal_first_candidate (call : String → CallOutcome) (language : String)
    (pairCount : Nat) (m : String) (rest : List String) (status : Nat) (msg : String)
    (hcall : call m = .httpError status msg)
    (hauth : authFatalSig (lowerStr msg) = true) :
    generateWordWorksheet call language pairCount (m :: rest) =
      (.failure (humanizeGeminiError msg [m]), [m]) ∧
    ∃ p, humanizeGeminiError msg [m] = p ++ ("Tried models: " ++ m ++ ".") := by
  have hret : isRetryableModelError status msg = false := by
    unfold isRetryableModelError
    simp [hauth]
  constructor
  · simp [generateWordWorksheet, generateWordWorksheetGo, hcall, hret]
  · simp only [humanizeGeminiError]
    split
    · exact ⟨_, rfl⟩
    · split
      · split
        · exact ⟨_, rfl⟩
        · exact ⟨_, rfl⟩
      · exact ⟨_, rfl⟩

/-- A provider stub whose every call fails with a fatal billing message
under a server-side status. -/
def fatalDemoCall : String → CallOutcome := fun _ =>
  .httpError 503 "Permission denied: billing account is closed"

/-- C2 witness: the theorem applied to the fatal stub at status 503 with
the default candidate order. -/
theorem fatal_first_candidate_witness :
    generateWordWorksheet fatalDemoCall "English" 5
      ["gemini-3.1-pro-preview", "gemini-2.5-pro", "gemini-2.5-flash"] =
      (.failure (humanizeGeminiError "Permission denied: billing account is closed"
        ["gemini-3.1-pro-preview"]), ["gemini-3.1-pro-preview"]) :=
  (fatal_first_candidate fatalDemoCall "English" 5 "gemini-3.1-pro-preview"
    ["gemini-2.5-pro", "gemini-2.5-flash"] 503
    "Permission denied: billing account is closed" rfl (by decide)).1

/-- C3.  With three candidates where the first two calls fail retryably
and the third returns a payload that normalizes into a worksheet, the
resolver returns Success with the third candidate as the used model after
exactly three calls. -/
theorem fallback_third_success (call : String → CallOutcome) (language : String)
    (pairCount : Nat) (m1 m2 m3 : String) (s1 s2 : Nat) (e1 e2 : String)
    (j : JValue) (w : Worksheet)
    (h1 : call m1 = .httpError s1 e1) (r1 : isRetryableModelError s1 e1 = true)
    (h2 : call m2 = .httpError s2 e2) (r2 : isRetryableModelError s2 e2 = true)
    (h3 : call m3 = .parsed j)
    (hn : normalizeWordWorksheet j language pairCount = .ok w) :
    generateWordWorksheet call language pairCount [m1, m2, m3] =
      (.success w m3, [m1, m2, m3]) := by
  simp [generateWordWorksheet, generateWordWorksheetGo, h1, h2, h3, r1, r2, hn]

/-- A provider stub: first candidate throttled, second under a 5xx, third
returns the demo payload. -/
def fallbackDemoCall : String → CallOutcome := fun m =>
  if m = "gemini-3.1-pro-preview" then
    .httpError 429 "Rate limit exceeded. Please retry in 2.5s."
  else if m = "gemini-2.5-pro" then
    .httpError 503 "The service is currently unavailable."
  else .parsed demoWorksheetJson

/-- C3 witness: the theorem applied to the three-candidate stub. -/
theorem fallback_third_success_witness :
    generateWordWorksheet fallbackDemoCall "English" 5
      ["gemini-3.1-pro-preview", "gemini-2.5-pro", "gemini-2.5-flash"] =
      (.success demoNormalized "gemini-2.5-flash",
        ["gemini-3.1-pro-preview", "gemini-2.5-pro", "gemini-2.5-flash"]) :=
  fallback_third_success fallbackDemoCall "English" 5
    "gemini-3.1-pro-preview" "gemini-2.5-pro" "gemini-2.5-flash" 429 503
    "Rate limit exceeded. Please retry in 2.5s." "The service is currently unavailable."
    demoWorksheetJson demoNormalized rfl (by decide) rfl (by decide) rfl rfl

/-! ## Bounded concurrency dispatcher `mapWithConcurrency` -/

/-- Status of one worker of `mapWithConcurrency`: ready to claim the next
index, awaiting the mapper for a claimed index, returned after claiming an
index past the end, or terminated by an uncaught mapper rejection. -/
inductive WStatus where
  | idle
  | running (idx : Nat)
  | done
  | crashed
deriving DecidableEq, Repr

/-- The dispatcher's shared state: the claim cursor, the slot-per-item
results array (`none` is an unwritten slot), the worker pool and the
first uncaught rejection, if any. -/
structure DState (ε α : Type) where
  nextIndex : Nat
  results : List (Option α)
  workers : List WStatus
  thrown : Option ε
deriving DecidableEq, Repr

/-- `Math.max(1, Math.min(concurrency, items.length))`. -/
def workerCount (concurrency n : Nat) : Nat :=
  max 1 (min concurrency n)

/-- The dispatcher's state when the workers are spawned. -/
def initD (ε α : Type) (n concurrency : Nat) : DState ε α :=
  { nextIndex := 0, results := List.replicate n none,
    workers := List.replicate (workerCount concurrency n) .idle, thrown := none }

/-- One scheduler step: worker `w` either atomically claims the next index
(the synchronous code between awaits: read the cursor, increment, return
when past the end) or completes its awaited mapper call, writing the
result into its claimed slot.  A mapper rejection leaves the slot
unwritten, terminates the worker and records the rejection of the joint
`Promise.all`.  Retired or crashed workers and out-of-pool ids change
nothing. -/
def stepD (job : Nat → Except ε α) (n : Nat) (s : DState ε α) (w : Nat) : DState ε α :=
  match s.workers[w]? with
  | some .idle =>
    if s.nextIndex < n then
      { s with nextIndex := s.nextIndex + 1, workers := s.workers.set w (.running s.nextIndex) }
    else
      { s with nextIndex := s.nextIndex + 1, workers := s.workers.set w .done }
  | some (.running i) =>
    match job i with
    | .ok a => { s with results := s.results.set i (some a), workers := s.workers.set w .idle }
    | .error e =>
      { s with workers := s.workers.set w .crashed,
               thrown := match s.thrown with | some e0 => some e0 | none => some e }
  | _ => s

/-- Run the dispatcher under an arbitrary interleaving of worker steps. -/
def runD (job : Nat → Except ε α) (n : Nat) (s : DState ε α) (sched : List Nat) : DState ε α :=
  sched.foldl (stepD job n) s

/-- Every worker has returned: the `Promise.all` join resolved. -/
def allDone (s : DState ε α) : Prop :=
  s.workers ≠ [] ∧ ∀ st ∈ s.workers, st = WStatus.done

instance (s : DState ε α) : Decidable (allDone s) := by
  unfold allDone
  exact inferInstance

/-- What the `mapWithConcurrency` promise settles to: the first uncaught
mapper rejection, or the results array. -/
def dispatchOutcome (s : DState ε α) : Except ε (List (Option α)) :=
  match s.thrown with
  | some e => .error e
  | none => .ok s.results

theorem lt_of_getElem?_some {γ : Type} {l : List γ} {i : Nat} {a : γ}
    (h : l[i]? = some a) : i < l.length := by
  by_contra hcon
  rw [List.getElem?_eq_none (Nat.le_of_not_lt hcon)] at h
  exact Option.noConfusion h

/-- The dispatcher invariant: the results array keeps its length, a
written slot holds its own job's value, every claimed in-range index is
written or owned by a running worker unless a worker has crashed, running
workers own in-range indices, and a retired worker means the cursor has
passed the end. -/
structure DInv (job : Nat → Except ε α) (n : Nat) (s : DState ε α) : Prop where
  rlen : s.results.length = n
  rval : ∀ (i : Nat) (a : α), s.results[i]? = some (some a) → job i = Except.ok a
  cover : ∀ i : Nat, i < n → i < s.nextIndex →
    (∃ a : α, s.results[i]? = some (some a)) ∨
    (∃ w : Nat, s.workers[w]? = some (WStatus.running i)) ∨
    (∃ w : Nat, s.workers[w]? = some WStatus.crashed)
  runBound : ∀ (w i : Nat), s.workers[w]? = some (WStatus.running i) → i < n
  doneNext : ∀ w : Nat, s.workers[w]? = some WStatus.done → n < s.nextIndex

theorem initD_inv (job : Nat → Except ε α) (n concurrency : Nat) :
    DInv job n (initD ε α n concurrency) := by
  constructor
  · simp [initD]
  · intro i a h
    simp only [initD, List.getElem?_replicate] at h
    split at h
    · exact absurd h (by simp)
    · exact absurd h (by simp)
  · intro i _ hlt
    simp only [initD] at hlt
    omega
  · intro w i h
    simp only [initD, List.getElem?_replicate] at h
    split at h
    · exact absurd h (by simp)
    · exact absurd h (by simp)
  · intro w h
    simp only [initD, List.getElem?_replicate] at h
    split at h
    · exact absurd h (by simp)
    · exact absurd h (by simp)

theorem stepD_inv (job : Nat → Except ε α) (n : Nat) (s : DState ε α) (w : Nat)
    (h : DInv job n s) : DInv job n (stepD job n s w) := by
  unfold stepD
  split
  · -- an idle worker claims the cursor
    rename_i hw
    have hwlen : w < s.workers.length := lt_of_getElem?_some hw
    by_cases hi : s.nextIndex < n
    · rw [if_pos hi]
      refine ⟨h.rlen, h.rval, ?_, ?_, ?_⟩
      · intro i hin hlt
        dsimp only at hlt ⊢
        rcases Nat.lt_succ_iff_lt_or_eq.mp hlt with hlt' | heq
        · rcases h.cover i hin hlt' with ⟨a, ha⟩ | ⟨w', hw'⟩ | ⟨w', hw'⟩
          · exact Or.inl ⟨a, ha⟩
          · have hne : w' ≠ w := by
              intro hcon
              subst hcon
              rw [hw] at hw'
              exact WStatus.noConfusion (Option.some.inj hw')
            exact Or.inr (Or.inl ⟨w', by
              rw [List.getElem?_set_ne (Ne.symm hne)]; exact hw'⟩)
          · have hne : w' ≠ w := by
              intro hcon
              subst hcon
              rw [hw] at hw'
              exact WStatus.noConfusion (Option.some.inj hw')
            exact Or.inr (Or.inr ⟨w', by
              rw [List.getElem?_set_ne (Ne.symm hne)]; exact hw'⟩)
        · subst heq
          exact Or.inr (Or.inl ⟨w, by rw [List.getElem?_set_self hwlen]⟩)
      · intro w' i hw'
        dsimp only at hw'
        by_cases hww : w' = w
        · subst hww
          rw [List.getElem?_set_self hwlen] at hw'
          have h2 := Option.some.inj hw'
          injection h2 with h3
          subst h3
          exact hi
        · rw [List.getElem?_set_ne (Ne.symm hww)] at hw'
          exact h.runBound w' i hw'
      · intro w' hw'
        dsimp only at hw' ⊢
        by_cases hww : w' = w
        · subst hww
          rw [List.getElem?_set_self hwlen] at hw'
          exact absurd (Option.some.inj hw') (by simp)
        · rw [List.getElem?_set_ne (Ne.symm hww)] at hw'
          exact Nat.lt_succ_of_lt (h.doneNext w' hw')
    · rw [if_neg hi]
      refine ⟨h.rlen, h.rval, ?_, ?_, ?_⟩
      · intro i hin hlt
        dsimp only at hlt ⊢
        have hlt' : i < s.nextIndex := Nat.lt_of_lt_of_le hin (Nat.le_of_not_lt hi)
        rcases h.cover i hin hlt' with ⟨a, ha⟩ | ⟨w', hw'⟩ | ⟨w', hw'⟩
        · exact Or.inl ⟨a, ha⟩
        · have hne : w' ≠ w := by
            intro hcon
            subst hcon
            rw [hw] at hw'
            exact WStatus.noConfusion (Option.some.inj hw')
          exact Or.inr (Or.inl ⟨w', by
            rw [List.getElem?_set_ne (Ne.symm hne)]; exact hw'⟩)
        · have hne : w' ≠ w := by
            intro hcon
            subst hcon
            rw [hw] at hw'
            exact WStatus.noConfusion (Option.some.inj hw')
          exact Or.inr (Or.inr ⟨w', by
            rw [List.getElem?_set_ne (Ne.symm hne)]; exact hw'⟩)
      · intro w' i hw'
        dsimp only at hw'
        by_cases hww : w' = w
        · subst hww
          rw [List.getElem?_set_self hwlen] at hw'
          exact absurd (Option.some.inj hw') (by simp)
        · rw [List.getElem?_set_ne (Ne.symm hww)] at hw'
          exact h.runBound w' i hw'
      · intro w' hw'
        dsimp only at hw' ⊢
        by_cases hww : w' = w
        · exact Nat.lt_succ_of_le (Nat.le_of_not_lt hi)
        · rw [List.getElem?_set_ne (Ne.symm hww)] at hw'
          exact Nat.lt_succ_of_lt (h.doneNext w' hw')
  · -- a running worker's mapper settles
    rename_i i0 hw
    have hwlen : w < s.workers.length := lt_of_getElem?_some hw
    have hi0 : i0 < n := h.runBound w i0 hw
    have hi0len : i0 < s.results.length := by rw [h.rlen]; exact hi0
    split
    · -- the mapper resolved: write the slot, loop back to idle
      rename_i a hj
      refine ⟨?_, ?_, ?_, ?_, ?_⟩
      · dsimp only
        rw [List.length_set]
        exact h.rlen
      · intro i' a' ha'
        dsimp only at ha'
        by_cases hii : i' = i0
        · subst hii
          rw [List.getElem?_set_self hi0len] at ha'
          obtain rfl : a = a' := Option.some.inj (Option.some.inj ha')
          exact hj
        · rw [List.getElem?_set_ne (fun hcon => hii hcon.symm)] at ha'
          exact h.rval i' a' ha'
      · intro i' hi' hlt
        dsimp only at hlt ⊢
        by_cases hii : i' = i0
        · subst hii
          exact Or.inl ⟨a, by rw [List.getElem?_set_self hi0len]⟩
        · rcases h.cover i' hi' hlt with ⟨b, hb⟩ | ⟨w', hw'⟩ | ⟨w', hw'⟩
          · exact Or.inl ⟨b, by
              rw [List.getElem?_set_ne (fun hcon => hii hcon.symm)]; exact hb⟩
          · have hne : w' ≠ w := by
              intro hcon
              subst hcon
              rw [hw] at hw'
              have h2 := Option.some.inj hw'
              injection h2 with h3
              exact hii h3.symm
            exact Or.inr (Or.inl ⟨w', by
              rw [List.getElem?_set_ne (Ne.symm hne)]; exact hw'⟩)
          · have hne : w' ≠ w := by
              intro hcon
              subst hcon
              rw [hw] at hw'
              exact WStatus.noConfusion (Option.some.inj hw')
            exact Or.inr (Or.inr ⟨w', by
              rw [List.getElem?_set_ne (Ne.symm hne)]; exact hw'⟩)
      · intro w' i' hw'
        dsimp only at hw'
        by_cases hww : w' = w
        · subst hww
          rw [List.getElem?_set_self hwlen] at hw'
          exact absurd (Option.some.inj hw') (by simp)
        · rw [List.getElem?_set_ne (Ne.symm hww)] at hw'
          exact h.runBound w' i' hw'
      · intro w' hw'
        dsimp only at hw' ⊢
        by_cases hww : w' = w
        · subst hww
          rw [List.getElem?_set_self hwlen] at hw'
          exact absurd (Option.some.inj hw') (by simp)
        · rw [List.getElem?_set_ne (Ne.symm hww)] at hw'
          exact h.doneNext w' hw'
    · -- the mapper rejected: the worker terminates
      refine ⟨h.rlen, h.rval, ?_, ?_, ?_⟩
      · intro i' _ _
        exact Or.inr (Or.inr ⟨w, by
          dsimp only
          rw [List.getElem?_set_self hwlen]⟩)
      · intro w' i' hw'
        dsimp only at hw'
        by_cases hww : w' = w
        · subst hww
          rw [List.getElem?_set_self hwlen] at hw'
          exact absurd (Option.some.inj hw') (by simp)
        · rw [List.getElem?_set_ne (Ne.symm hww)] at hw'
          exact h.runBound w' i' hw'
      · intro w' hw'
        dsimp only at hw' ⊢
        by_cases hww : w' = w
        · subst hww
          rw [List.getElem?_set_self hwlen] at hw'
          exact absurd (Option.some.inj hw') (by simp)
        · rw [List.getElem?_set_ne (Ne.symm hww)] at hw'
          exact h.doneNext w' hw'
  · -- retired, crashed, or out of pool: no change
    exact h

theorem runD_inv (job : Nat → Except ε α) (n : Nat) (sched : List Nat)
    (s : DState ε α) (h : DInv job n s) : DInv job n (runD job n s sched) := by
  induction sched generalizing s with
  | nil => exact h
  | cons w rest ih => exact ih _ (stepD_inv job n s w h)

/-- At a state where every worker has returned, every in-range slot holds
its own job's successful value: some worker claimed it (the cursor passed
the end for any worker to retire) and completed it without crashing. -/
theorem allDone_slots (job : Nat → Except ε α) (n : Nat) (s : DState ε α)
    (hinv : DInv job n s) (hdone : allDone s) :
    ∀ i : Nat, i < n → ∃ a, job i = Except.ok a ∧ s.results[i]? = some (some a) := by
  intro i hi
  obtain ⟨hne, hall⟩ := hdone
  have h0 : ∃ st, s.workers[0]? = some st := by
    cases hw : s.workers[0]? with
    | some st => exact ⟨st, rfl⟩
    | none =>
      have : s.workers.length = 0 := by
        by_contra hlen
        rw [List.getElem?_eq_getElem (by omega)] at hw
        exact Option.noConfusion hw
      exact absurd (List.eq_nil_of_length_eq_zero this) hne
  obtain ⟨st, h0⟩ := h0
  have hmem : st ∈ s.workers := by
    have := List.getElem?_eq_some.mp h0
    obtain ⟨hlt, hget⟩ := this
    exact hget ▸ List.getElem_mem hlt
  have hst : st = WStatus.done := hall st hmem
  subst hst
  have hnext : n < s.nextIndex := hinv.doneNext 0 h0
  rcases hinv.cover i hi (Nat.lt_trans hi hnext) with ⟨a, ha⟩ | ⟨w, hw⟩ | ⟨w, hw⟩
  · exact ⟨a, hinv.rval i a ha, ha⟩
  · have hmem' : WStatus.running i ∈ s.workers := by
      obtain ⟨hlt, hget⟩ := List.getElem?_eq_some.mp hw
      exact hget ▸ List.getElem_mem hlt
    exact absurd (hall _ hmem') (by simp)
  · have hmem' : WStatus.crashed ∈ s.workers := by
      obtain ⟨hlt, hget⟩ := List.getElem?_eq_some.mp hw
      exact hget ▸ List.getElem_mem hlt
    exact absurd (hall _ hmem') (by simp)

/-- C1 (amended).  For every job family, worker budget and schedule under
which all workers finish, the dispatcher's results array has exactly one
slot per input item and slot i holds the outcome of job i — never of
another job — regardless of the order in which jobs complete.  Recorded
per-item failures are outcome values written by the caller's mapper (which
is where the catching happens); `mapWithConcurrency` itself does not
catch: a job that throws crashes its worker and rejects the whole
dispatch, as the separate counterexample shows. -/
theorem mapWithConcurrency_slot_identity (job : Nat → Except ε α)
    (n concurrency : Nat) (sched : List Nat)
    (hdone : allDone (runD job n (initD ε α n concurrency) sched)) :
    (runD job n (initD ε α n concurrency) sched).results.length = n ∧
    ∀ i : Nat, i < n → ∃ a, job i = Except.ok a ∧
      (runD job n (initD ε α n concurrency) sched).results[i]? = some (some a) := by
  have hinv := runD_inv job n sched _ (initD_inv job n concurrency)
  exact ⟨hinv.rlen, allDone_slots job n _ hinv hdone⟩

/-- The spec scenario with job 4 actually throwing: an uncaught mapper
rejection. -/
def throwingJobs : Nat → Except String Nat := fun i =>
  if i = 4 then .error "boom" else .ok i

/-- A realizable interleaving for ten jobs under a worker budget of three:
worker 0 claims and completes jobs 0 to 4 and crashes at 4, worker 1
drains jobs 5 to 9, then workers 1 and 2 claim past the end and retire. -/
def crashSched : List Nat :=
  [0,0,0,0,0,0,0,0,0,0] ++ [1,1,1,1,1,1,1,1,1,1] ++ [1, 2]

/-- C1 counterexample: dispatching 10 jobs with budget 3 where the job at
index 4 throws, the worker does not catch: it terminates early (crashed),
slot 4 never receives a failure outcome, and the dispatch as a whole
rejects instead of returning a results array. -/
theorem mapWithConcurrency_throw_rejects :
    (runD throwingJobs 10 (initD String Nat 10 3) crashSched).workers[0]? =
      some WStatus.crashed ∧
    (runD throwingJobs 10 (initD String Nat 10 3) crashSched).results[4]? =
      some none ∧
    dispatchOutcome (runD throwingJobs 10 (initD String Nat 10 3) crashSched) =
      .error "boom" :=
  ⟨by decide, by decide, rfl⟩

/-- The spec scenario with failures recorded as outcome values by the
caller's mapper, as the hydration flow's try/catch does: job 4 records a
failure value, all others record successes. -/
def recordedJobs : Nat → Except String (Except String Nat) := fun i =>
  .ok (if i = 4 then .error "no image" else .ok i)

/-- A schedule under which all three workers finish the ten jobs. -/
def drainSched : List Nat :=
  [0,0,0,0,0,0,0,0,0,0] ++ [1,1,1,1,1,1,1,1,1,1] ++ [0, 1, 2]

/-- C1 witness: the amended theorem applied to the 10-job budget-3
scenario; the full results array shows exactly one recorded failure, at
slot 4, and successes everywhere else. -/
theorem mapWithConcurrency_slot_identity_witness :
    (∃ a, recordedJobs 4 = Except.ok a ∧
      (runD recordedJobs 10 (initD String (Except String Nat) 10 3)
        drainSched).results[4]? = some (some a)) ∧
    (runD recordedJobs 10 (initD String (Except String Nat) 10 3)
        drainSched).results =
      [some (.ok 0), some (.ok 1), some (.ok 2), some (.ok 3),
       some (.error "no image"), some (.ok 5), some (.ok 6), some (.ok 7),
       some (.ok 8), some (.ok 9)] :=
  ⟨(mapWithConcurrency_slot_identity recordedJobs 10 3 drainSched (by decide)).2
      4 (by decide),
   rfl⟩

/-! ## Full-generation image batch of the request handler -/

/-- Keep first occurrences, dropping later duplicates, as iterating a
`Set` built by insertion does; `seen` accumulates the keys already kept. -/
def dedupSeen (seen : List String) : List String → List String
  | [] => []
  | x :: xs => if x ∈ seen then dedupSeen seen xs else x :: dedupSeen (x :: seen) xs

/-- `unique(items)`: `Array.from(new Set(items.filter(Boolean)))` — drops
falsy (empty) strings and later duplicates. -/
def uniqueStrings (items : List String) : List String :=
  dedupSeen [] (items.filter fun s => s ≠ "")

theorem mem_dedupSeen {x : String} :
    ∀ (l seen : List String), x ∈ dedupSeen seen l ↔ x ∈ l ∧ x ∉ seen := by
  intro l
  induction l with
  | nil => intro seen; simp [dedupSeen]
  | cons y ys ih =>
    intro seen
    by_cases hy : y ∈ seen
    · rw [dedupSeen, if_pos hy, ih]
      constructor
      · exact fun h => ⟨List.mem_cons_of_mem _ h.1, h.2⟩
      · rintro ⟨h1, h2⟩
        rcases List.mem_cons.mp h1 with rfl | h1
        · exact absurd hy h2
        · exact ⟨h1, h2⟩
    · rw [dedupSeen, if_neg hy]
      constructor
      · intro h
        rcases List.mem_cons.mp h with rfl | h
        · exact ⟨List.mem_cons_self _ _, hy⟩
        · have := (ih _).mp h
          exact ⟨List.mem_cons_of_mem _ this.1,
            fun hc => this.2 (List.mem_cons_of_mem _ hc)⟩
      · rintro ⟨h1, h2⟩
        rcases List.mem_cons.mp h1 with rfl | h1
        · exact List.mem_cons_self _ _
        · by_cases hxy : x = y
          · exact hxy ▸ List.mem_cons_self _ _
          · refine List.mem_cons_of_mem _ ((ih _).mpr ⟨h1, ?_⟩)
            intro hc
            rcases List.mem_cons.mp hc with hc | hc
            · exact hxy hc
            · exact h2 hc

theorem dedupSeen_nodup : ∀ (l seen : List String), (dedupSeen seen l).Nodup := by
  intro l
  induction l with
  | nil => intro seen; simp [dedupSeen]
  | cons y ys ih =>
    intro seen
    by_cases hy : y ∈ seen
    · rw [dedupSeen, if_pos hy]
      exact ih seen
    · rw [dedupSeen, if_neg hy]
      refine List.nodup_cons.mpr ⟨?_, ih _⟩
      intro hmem
      exact (mem_dedupSeen ys (y :: seen)).mp hmem |>.2 (List.mem_cons_self _ _)

theorem uniqueStrings_nodup (items : List String) : (uniqueStrings items).Nodup :=
  dedupSeen_nodup _ _

theorem mem_uniqueStrings {x : String} {items : List String} :
    x ∈ uniqueStrings items ↔ x ∈ items ∧ x ≠ "" := by
  unfold uniqueStrings
  rw [mem_dedupSeen, List.mem_filter]
  simp

/-- Outcome of `generateWordImage` for one word: a usable image payload or
a failure message, each carrying the tail of attempt diagnostics. -/
inductive ImageOutcome where
  | got (imageDataUrl : String) (mimeType : String) (usedModel : String)
        (debugAttempts : List String)
  | failed (error : String) (debugAttempts : List String)
deriving DecidableEq, Repr

/-- The truthy test `item.image && item.image.imageDataUrl`. -/
def hasImage : ImageOutcome → Bool
  | .got url _ _ _ => url ≠ ""
  | .failed _ _ => false

def imageUrlOf : ImageOutcome → String
  | .got url _ _ _ => url
  | .failed _ _ => ""

def imageMimeOf : ImageOutcome → String
  | .got _ mt _ _ => mt
  | .failed _ _ => ""

/-- `item.image && item.image.error ? item.image.error : 'no image
returned'`. -/
def imageErrorOrDefault : ImageOutcome → String
  | .got _ _ _ _ => "no image returned"
  | .failed e _ => if e = "" then "no image returned" else e

def debugAttemptsOf : ImageOutcome → List String
  | .got _ _ _ dbg => dbg
  | .failed _ dbg => dbg

/-- `slice(-k)`: the last `k` entries. -/
def lastN (k : Nat) (l : List String) : List String :=
  l.drop (l.length - k)

/-- `summarizeImageError(errorMessage)` from the server source. -/
def summarizeImageError (errorMessage : String) : String :=
  let lower := lowerStr errorMessage
  if limitZero lower.toList then
    "Image model entitlement is 0 for this project/key (not normal daily usage)."
  else if strContains lower "quota exceeded" || strContains lower "rate limit" ||
      strContains lower "resource exhausted" then
    match parseRetrySeconds errorMessage with
    | some n => "Image model throttled. Retry in about " ++ toString n ++ "s."
    | none => "Image model throttled this request."
  else String.mk (errorMessage.toList.take 220)

/-- `summarizeMissingImageReasons(imageResults)`: the first three per-word
failures rendered as word-colon-summary lines. -/
def summarizeMissingImageReasons (imageResults : List (String × ImageOutcome)) :
    List String :=
  ((imageResults.filter fun item => !hasImage item.2).take 3).map fun item =>
    item.1 ++ ": " ++ summarizeImageError (imageErrorOrDefault item.2)

structure ImageDiagEntry where
  word : String
  error : String
  attempts : List String
deriving DecidableEq, Repr

/-- `collectImageFailureDiagnostics(imageResults)`: the first five
per-word failures with their last three attempt lines. -/
def collectImageFailureDiagnostics (imageResults : List (String × ImageOutcome)) :
    List ImageDiagEntry :=
  ((imageResults.filter fun item => !hasImage item.2).take 5).map fun item =>
    { word := item.1, error := imageErrorOrDefault item.2,
      attempts := lastN 3 (debugAttemptsOf item.2) }

/-- The machine-readable diagnostics object of the response.  (The
configuration echo fields — provider, models, attempt and concurrency
bounds — are environment constants and are not modelled.) -/
structure ImageDiagnostics where
  missingWords : List String
  sampleFailures : List ImageDiagEntry
deriving DecidableEq, Repr

/-- The 200 response of the non-deferred generation flow. -/
structure FullGenResponse where
  status : Nat
  worksheet : Worksheet
  usedTextModel : String
  imageWarning : String
  imageDiagnostics : Option ImageDiagnostics
deriving DecidableEq, Repr

/-- The de-duplicated cleaned words collected across all pairs. -/
def fgUniqueWords (worksheet : Worksheet) : List String :=
  uniqueStrings
    ((worksheet.pairs.flatMap fun pair => [pair.left.word, pair.right.word]).map
      fun word => cleanWordStr word)

/-- The image batch: one job per unique word.  `mapWithConcurrency`
dispatches these under the configured budget; by the per-slot identity of
the dispatcher (`mapWithConcurrency_slot_identity`) the collected results
equal this per-word map. -/
def fgImageResults (worksheet : Worksheet) (imgFetch : String → ImageOutcome) :
    List (String × ImageOutcome) :=
  (fgUniqueWords worksheet).map fun word => (word, imgFetch word)

/-- The `wordToImage` map: the results that carry a usable image. -/
def fgWordToImage (worksheet : Worksheet) (imgFetch : String → ImageOutcome) :
    List (String × ImageOutcome) :=
  (fgImageResults worksheet imgFetch).filter fun item => hasImage item.2

/-- `Map.prototype.get` on the association list (keys are unique because
the unique-word list is duplicate-free). -/
def mapGet (m : List (String × ImageOutcome)) (k : String) : Option ImageOutcome :=
  (m.find? fun e => e.1 = k).map (·.2)

/-- The unique words that received no usable image. -/
def fgMissingWords (worksheet : Worksheet) (imgFetch : String → ImageOutcome) :
    List String :=
  (fgUniqueWords worksheet).filter fun word =>
    (mapGet (fgWordToImage worksheet imgFetch) word).isNone

/-- Merge step for one slot: the slot keeps its word and receives the
fetched image for that word, or empty marks when the fetch failed. -/
def fgEnrich (m : List (String × ImageOutcome)) (wi : WordIll) : WordIll :=
  match mapGet m wi.word with
  | some img => { wi with imageDataUrl := imageUrlOf img, mimeType := imageMimeOf img }
  | none => { wi with imageDataUrl := "", mimeType := "" }

/-- The non-deferred image batch and response assembly of the request
handler: collect unique cleaned words, fetch one image per word, merge
into every slot, and answer 200 with a partial-failure warning and
diagnostics when any word's image is missing. -/
def fullGeneration (worksheet : Worksheet) (usedModel : String)
    (imgFetch : String → ImageOutcome) : FullGenResponse :=
  let wordToImage := fgWordToImage worksheet imgFetch
  let missingWords := fgMissingWords worksheet imgFetch
  let missingReasons := summarizeMissingImageReasons (fgImageResults worksheet imgFetch)
  { status := 200,
    worksheet := { worksheet with
      pairs := worksheet.pairs.map fun pair =>
        { pair with left := fgEnrich wordToImage pair.left,
                    right := fgEnrich wordToImage pair.right } },
    usedTextModel := usedModel,
    imageWarning :=
      if 0 < missingWords.length then
        "Some images could not be generated (" ++ toString missingWords.length ++ "/" ++
          toString (fgUniqueWords worksheet).length ++
          "). You can still print the worksheet and refresh individual cards later." ++
          (if 0 < missingReasons.length then
            " Details: " ++ String.intercalate " || " missingReasons
          else "")
      else "",
    imageDiagnostics :=
      if 0 < missingWords.length then
        some { missingWords := missingWords,
               sampleFailures :=
                 collectImageFailureDiagnostics (fgImageResults worksheet imgFetch) }
      else none }

theorem fgEnrich_word (m : List (String × ImageOutcome)) (wi : WordIll) :
    (fgEnrich m wi).word = wi.word := by
  unfold fgEnrich
  cases mapGet m wi.word <;> rfl

theorem fgEnrich_missing {m : List (String × ImageOutcome)} {wi : WordIll}
    (h : mapGet m wi.word = none) : (fgEnrich m wi).imageDataUrl = "" := by
  unfold fgEnrich
  rw [h]

/-- C5.  Whenever the text worksheet was produced, per-word image failures
never abort the batch and never turn the response into an error: the
handler answers 200 with the complete worksheet (every pair's sound and
words preserved, a failed word's image slot set to the empty string),
and when any word is missing it attaches a warning stating the failed and
total unique-word counts plus a diagnostics object listing the failed
words with summarized reasons — with no restriction on how many words
failed, so this also holds when every image fails. -/
theorem fullGeneration_partial_failure_policy (worksheet : Worksheet)
    (usedModel : String) (imgFetch : String → ImageOutcome) :
    (fullGeneration worksheet usedModel imgFetch).status = 200 ∧
    ((fullGeneration worksheet usedModel imgFetch).worksheet.pairs.map fun q =>
      (q.rhymeSound, q.left.word, q.right.word)) =
      (worksheet.pairs.map fun p => (p.rhymeSound, p.left.word, p.right.word)) ∧
    (∀ q ∈ (fullGeneration worksheet usedModel imgFetch).worksheet.pairs,
      (q.left.word ∈ fgMissingWords worksheet imgFetch → q.left.imageDataUrl = "") ∧
      (q.right.word ∈ fgMissingWords worksheet imgFetch → q.right.imageDataUrl = "")) ∧
    (fgMissingWords worksheet imgFetch ≠ [] →
      (∃ rest, (fullGeneration worksheet usedModel imgFetch).imageWarning =
        "Some images could not be generated (" ++
          toString (fgMissingWords worksheet imgFetch).length ++ "/" ++
          toString (fgUniqueWords worksheet).length ++
          "). You can still print the worksheet and refresh individual cards later." ++
          rest) ∧
      (fullGeneration worksheet usedModel imgFetch).imageDiagnostics =
        some { missingWords := fgMissingWords worksheet imgFetch,
               sampleFailures := collectImageFailureDiagnostics
                 (fgImageResults worksheet imgFetch) }) := by
  refine ⟨rfl, ?_, ?_, ?_⟩
  · show (List.map _ (List.map _ worksheet.pairs)) = _
    rw [List.map_map]
    refine List.map_congr_left ?_
    intro p _
    simp [Function.comp, fgEnrich_word]
  · intro q hq
    have hq' : q ∈ List.map (fun pair =>
        { pair with left := fgEnrich (fgWordToImage worksheet imgFetch) pair.left,
                    right := fgEnrich (fgWordToImage worksheet imgFetch) pair.right })
        worksheet.pairs := hq
    obtain ⟨p, _, rfl⟩ := List.mem_map.mp hq'
    constructor
    · intro hmem
      have hpred := (List.mem_filter.mp hmem).2
      rw [fgEnrich_word] at hpred
      exact fgEnrich_missing (Option.isNone_iff_eq_none.mp hpred)
    · intro hmem
      have hpred := (List.mem_filter.mp hmem).2
      rw [fgEnrich_word] at hpred
      exact fgEnrich_missing (Option.isNone_iff_eq_none.mp hpred)
  · intro hm
    have hlen : 0 < (fgMissingWords worksheet imgFetch).length :=
      List.length_pos.mpr hm
    constructor
    · show (∃ rest, (if 0 < (fgMissingWords worksheet imgFetch).length then _ else "") = _)
      rw [if_pos hlen]
      exact ⟨_, rfl⟩
    · show (if 0 < (fgMissingWords worksheet imgFetch).length then _ else none) = _
      rw [if_pos hlen]

/-- An image fetch in which every word fails: a total image failure. -/
def allFailFetch : String → ImageOutcome := fun _ =>
  .failed "Quota exceeded for this project. Please retry in 20s."
    ["gemini-2.5-flash-image (attempt 1): quota"]

/-- C5 witness: the theorem applied to the demo worksheet with every image
failing — the response is still a 200 with the full word content, an
empty image slot for a failed word, the 10-of-10 warning and the
diagnostics listing all ten words. -/
theorem fullGeneration_partial_failure_policy_witness :
    (fullGeneration demoNormalized "gemini-3.1-pro-preview" allFailFetch).status = 200 ∧
    ({ rhymeSound := "-at", left := { word := "cat", imageDataUrl := "", mimeType := "" },
       right := { word := "hat", imageDataUrl := "", mimeType := "" } } : RhymePair).left.imageDataUrl = "" ∧
    (∃ rest,
      (fullGeneration demoNormalized "gemini-3.1-pro-preview" allFailFetch).imageWarning =
        "Some images could not be generated (" ++
          toString (fgMissingWords demoNormalized allFailFetch).length ++ "/" ++
          toString (fgUniqueWords demoNormalized).length ++
          "). You can still print the worksheet and refresh individual cards later." ++
          rest) ∧
    (fullGeneration demoNormalized "gemini-3.1-pro-preview" allFailFetch).imageDiagnostics =
      some { missingWords := fgMissingWords demoNormalized allFailFetch,
             sampleFailures := collectImageFailureDiagnostics
               (fgImageResults demoNormalized allFailFetch) } := by
  have h := fullGeneration_partial_failure_policy demoNormalized
    "gemini-3.1-pro-preview" allFailFetch
  have hm : fgMissingWords demoNormalized allFailFetch ≠ [] := by decide
  refine ⟨h.1, ?_, (h.2.2.2 hm).1, (h.2.2.2 hm).2⟩
  exact (h.2.2.1
    { rhymeSound := "-at", left := { word := "cat", imageDataUrl := "", mimeType := "" },
      right := { word := "hat", imageDataUrl := "", mimeType := "" } }
    (by decide)).1 (by decide)

/-- The image reference an enriched slot receives, as a function of the
slot's word alone. -/
def fgUrlFor (worksheet : Worksheet) (imgFetch : String → ImageOutcome)
    (w : String) : String :=
  match mapGet (fgWordToImage worksheet imgFetch) w with
  | some img => imageUrlOf img
  | none => ""

/-- Every enriched slot's image reference is determined by the slot's own
word alone. -/
theorem enriched_slot_url (worksheet : Worksheet) (imgFetch : String → ImageOutcome)
    (wi : WordIll) :
    (fgEnrich (fgWordToImage worksheet imgFetch) wi).imageDataUrl =
      fgUrlFor worksheet imgFetch
        ((fgEnrich (fgWordToImage worksheet imgFetch) wi).word) := by
  rw [fgEnrich_word]
  unfold fgEnrich fgUrlFor
  cases mapGet (fgWordToImage worksheet imgFetch) wi.word <;> rfl

/-- Looking a word up in the image map yields exactly that word's single
fetch result, when the word was dispatched and produced a usable image. -/
theorem mapGet_fetch {f : String → ImageOutcome} {w : String} :
    ∀ us : List String, us.Nodup → w ∈ us → hasImage (f w) = true →
      mapGet ((us.map fun u => (u, f u)).filter fun item => hasImage item.2) w =
        some (f w) := by
  intro us
  induction us with
  | nil => intro _ h; exact absurd h (List.not_mem_nil _)
  | cons u rest ih =>
    intro hnd hmem hhas
    have hnd' := List.nodup_cons.mp hnd
    by_cases hw : w = u
    · subst hw
      simp only [List.map_cons, List.filter_cons, hhas, if_true]
      unfold mapGet
      simp [List.find?_cons]
    · have hmem' : w ∈ rest := by
        rcases List.mem_cons.mp hmem with h | h
        · exact absurd h hw
        · exact h
      simp only [List.map_cons, List.filter_cons]
      by_cases hu : hasImage (f u) = true
      · simp only [hu, if_true]
        unfold mapGet
        rw [List.find?_cons_of_neg _ (by simpa using fun hc => hw hc.symm)]
        exact ih hnd'.2 hmem' hhas
      · simp only [hu]
        simp only [Bool.false_eq_true, if_false]
        exact ih hnd'.2 hmem' hhas

/-- Exactly one image job is dispatched per word present in the
duplicate-free unique-word list. -/
theorem filter_key_length_one {w : String} :
    ∀ us : List String, us.Nodup → w ∈ us →
      (us.filter fun u => u = w).length = 1 := by
  intro us
  induction us with
  | nil => intro _ h; exact absurd h (List.not_mem_nil _)
  | cons u rest ih =>
    intro hnd hmem
    have hnd' := List.nodup_cons.mp hnd
    by_cases hw : u = w
    · subst hw
      rw [List.filter_cons]
      simp only [decide_eq_true_eq, if_pos rfl]
      have hnil : rest.filter (fun x => decide (x = u)) = [] := by
        rw [List.filter_eq_nil_iff]
        intro a ha
        simp only [decide_eq_true_eq]
        intro hc
        exact hnd'.1 (hc ▸ ha)
      rw [hnil]
      rfl
    · rw [List.filter_cons]
      simp only [decide_eq_true_eq, hw, if_false]
      rcases List.mem_cons.mp hmem with h | h
      · exact absurd h.symm hw
      · exact ih hnd'.2 h

/-- C6.  During full generation exactly one image job is dispatched per
distinct cleaned word collected across all pairs: the dispatched list is
duplicate-free, contains precisely the (non-empty) cleaned words of the
pair slots, and carries one entry per word; after the merge every pair
slot shows an image reference determined by its word alone — so duplicate
occurrences of one word in different pairs carry identical references —
and a slot whose word got a usable image carries exactly that single
fetch's reference. -/
theorem fullGeneration_dedup_and_shared_images (worksheet : Worksheet)
    (usedModel : String) (imgFetch : String → ImageOutcome) :
    (fgUniqueWords worksheet).Nodup ∧
    (∀ w, w ∈ fgUniqueWords worksheet ↔
      w ∈ (worksheet.pairs.flatMap fun p => [p.left.word, p.right.word]).map
        (fun x => cleanWordStr x) ∧ w ≠ "") ∧
    ((fgImageResults worksheet imgFetch).map Prod.fst = fgUniqueWords worksheet) ∧
    (∀ w ∈ fgUniqueWords worksheet,
      ((fgImageResults worksheet imgFetch).filter fun item => item.1 = w).length = 1) ∧
    (∀ q1 ∈ (fullGeneration worksheet usedModel imgFetch).worksheet.pairs,
     ∀ q2 ∈ (fullGeneration worksheet usedModel imgFetch).worksheet.pairs,
     ∀ s1 s2 : WordIll, (s1 = q1.left ∨ s1 = q1.right) → (s2 = q2.left ∨ s2 = q2.right) →
       s1.word = s2.word → s1.imageDataUrl = s2.imageDataUrl) ∧
    (∀ w, w ∈ fgUniqueWords worksheet → hasImage (imgFetch w) = true →
      ∀ q ∈ (fullGeneration worksheet usedModel imgFetch).worksheet.pairs,
        (q.left.word = w → q.left.imageDataUrl = imageUrlOf (imgFetch w)) ∧
        (q.right.word = w → q.right.imageDataUrl = imageUrlOf (imgFetch w))) := by
  have hkey : ∀ w, w ∈ fgUniqueWords worksheet → hasImage (imgFetch w) = true →
      mapGet (fgWordToImage worksheet imgFetch) w = some (imgFetch w) := by
    intro w hmem hhas
    exact mapGet_fetch (fgUniqueWords worksheet) (uniqueStrings_nodup _) hmem hhas
  refine ⟨uniqueStrings_nodup _, fun w => mem_uniqueStrings, ?_, ?_, ?_, ?_⟩
  · unfold fgImageResults
    rw [List.map_map]
    exact (List.map_congr_left fun a _ => rfl).trans (List.map_id _)
  · intro w hmem
    unfold fgImageResults
    rw [List.filter_map]
    rw [List.length_map]
    exact filter_key_length_one _ (uniqueStrings_nodup _) hmem
  · intro q1 hq1 q2 hq2 s1 s2 hs1 hs2 hword
    have hmap : ∀ q ∈ (fullGeneration worksheet usedModel imgFetch).worksheet.pairs,
        ∀ s : WordIll, (s = q.left ∨ s = q.right) →
        s.imageDataUrl = fgUrlFor worksheet imgFetch s.word := by
      intro q hq s hs
      obtain ⟨p, _, rfl⟩ := List.mem_map.mp hq
      rcases hs with rfl | rfl
      · exact enriched_slot_url worksheet imgFetch p.left
      · exact enriched_slot_url worksheet imgFetch p.right
    rw [hmap q1 hq1 s1 hs1, hmap q2 hq2 s2 hs2, hword]
  · intro w hmem hhas q hq
    obtain ⟨p, _, rfl⟩ := List.mem_map.mp hq
    constructor
    · intro hwq
      have h1 := enriched_slot_url worksheet imgFetch p.left
      rw [hwq] at h1
      rw [h1]
      unfold fgUrlFor
      rw [hkey w hmem hhas]
    · intro hwq
      have h1 := enriched_slot_url worksheet imgFetch p.right
      rw [hwq] at h1
      rw [h1]
      unfold fgUrlFor
      rw [hkey w hmem hhas]

/-- A worksheet in which the word "cat" appears in two different pairs. -/
def dupWorksheet : Worksheet :=
  { title := "T", instruction := "I", language := "English",
    pairs := [
      { rhymeSound := "-at",
        left := { word := "cat", imageDataUrl := "", mimeType := "" },
        right := { word := "hat", imageDataUrl := "", mimeType := "" } },
      { rhymeSound := "-at again",
        left := { word := "bat", imageDataUrl := "", mimeType := "" },
        right := { word := "cat", imageDataUrl := "", mimeType := "" } }] }

/-- A per-word image fetch producing a distinct usable reference per
word. -/
def dupFetch : String → ImageOutcome := fun w =>
  .got ("https://img.example/" ++ w) "image/png" "gemini-2.5-flash-image" []

/-- C6 witness: the theorem applied to the duplicate-word worksheet —
exactly one job is dispatched for "cat", and both occurrences of "cat"
(in the first pair's left slot and the second pair's right slot) carry
the identical reference produced by that single fetch. -/
theorem fullGeneration_dedup_and_shared_images_witness :
    ((fgImageResults dupWorksheet dupFetch).filter fun item => item.1 = "cat").length = 1 ∧
    ({ rhymeSound := "-at",
       left := { word := "cat", imageDataUrl := "https://img.example/cat",
                 mimeType := "image/png" },
       right := { word := "hat", imageDataUrl := "https://img.example/hat",
                  mimeType := "image/png" } } : RhymePair).left.imageDataUrl =
      imageUrlOf (dupFetch "cat") ∧
    ({ rhymeSound := "-at again",
       left := { word := "bat", imageDataUrl := "https://img.example/bat",
                 mimeType := "image/png" },
       right := { word := "cat", imageDataUrl := "https://img.example/cat",
                  mimeType := "image/png" } } : RhymePair).right.imageDataUrl =
      imageUrlOf (dupFetch "cat") := by
  have h := fullGeneration_dedup_and_shared_images dupWorksheet "m" dupFetch
  refine ⟨h.2.2.2.1 "cat" (by decide), ?_, ?_⟩
  · exact (h.2.2.2.2.2 "cat" (by decide) (by decide) _ (by decide)).1 rfl
  · exact (h.2.2.2.2.2 "cat" (by decide) (by decide) _ (by decide)).2 rfl

/-! ## UI run-token state machine -/

/-- One card of the two printable columns. -/
structure ColumnCard where
  id : String
  pairIndex : Nat
  word : String
  imageDataUrl : String
  sideLeft : Bool
deriving DecidableEq, Repr

structure Cards where
  left : List ColumnCard
  right : List ColumnCard
deriving DecidableEq, Repr

/-- The App component state touched by generation and hydration. -/
structure AppState where
  runToken : Nat
  worksheet : Option Worksheet
  cards : Option Cards
  isLoading : Bool
  isHydrating : Bool
  error : String
  warning : String
  warningDetails : String
deriving DecidableEq, Repr

/-- `patchWordImageEverywhere` on the cards columns. -/
def patchCards (targetWord imageDataUrl : String) (c : Cards) : Cards :=
  let patchItems := fun (items : List ColumnCard) =>
    items.map fun item =>
      if item.word = targetWord then { item with imageDataUrl := imageDataUrl } else item
  { left := patchItems c.left, right := patchItems c.right }

/-- `patchWordImageEverywhere` on the worksheet pairs. -/
def patchWorksheet (targetWord imageDataUrl : String) (w : Worksheet) : Worksheet :=
  { w with pairs := w.pairs.map fun pair =>
      { pair with
        left := if pair.left.word = targetWord then
            { pair.left with imageDataUrl := imageDataUrl } else pair.left,
        right := if pair.right.word = targetWord then
            { pair.right with imageDataUrl := imageDataUrl } else pair.right } }

/-- `patchWordImageEverywhere(targetWord, imageDataUrl)`: both setState
updaters keep a `null` state unchanged. -/
def patchWordImageEverywhere (s : AppState) (targetWord imageDataUrl : String) :
    AppState :=
  { s with cards := s.cards.map (patchCards targetWord imageDataUrl),
           worksheet := s.worksheet.map (patchWorksheet targetWord imageDataUrl) }

/-- The observable events of the generation flow.  `generateStart` is the
synchronous head of `handleGenerate`; `textSuccess`/`textFailure` are the
resolution of its worksheet request (the shuffled cards arrive as event
data); `imageComplete` is one hydration job completing under the run
token it captured, carrying the sanitized fetched reference or the thrown
message, plus the run-local progress counters. -/
inductive UIEvent where
  | generateStart
  | textSuccess (w : Worksheet) (c : Cards) (imageWarning : String)
      (imageDiagnostics : String)
  | textFailure (message : String)
  | imageComplete (runToken : Nat) (word : String)
      (fetched : Except String String) (completed total : Nat)

/-- The state transition of each event, from the source of
`handleGenerate`, `hydrateImagesForWorksheet` and its mapper: a completion
checks its captured token against the latest issued token before the
patch, and again before the progress warning; failures are recorded in
arrays local to the hydration run. -/
def uiStep (s : AppState) : UIEvent → AppState
  | .generateStart =>
    { s with runToken := s.runToken + 1, isLoading := true, isHydrating := false,
             error := "", warning := "", warningDetails := "" }
  | .textSuccess w c iw idg =>
    { s with worksheet := some w, cards := some c, warning := iw,
             warningDetails := idg, isLoading := false }
  | .textFailure msg =>
    { s with error := msg, isHydrating := false, isLoading := false }
  | .imageComplete t word fetched completed total =>
    let s1 := match fetched with
      | .ok url =>
        if t ≠ s.runToken then s
        else if url ≠ "" then patchWordImageEverywhere s word url
        else s
      | .error _ => s
    if t = s1.runToken then
      { s1 with warning := "Generating images (" ++ toString completed ++ "/" ++
          toString total ++ ")…" }
    else s1

/-- C4.  An image-hydration completion carrying a run token older than the
latest issued one mutates nothing: neither the worksheet nor the cards
(indeed the whole state is unchanged, its result silently discarded); and
no event ever decreases the run token. -/
theorem stale_hydration_discarded :
    (∀ (s : AppState) (t : Nat) (word : String) (fetched : Except String String)
       (completed total : Nat), t < s.runToken →
      (uiStep s (.imageComplete t word fetched completed total)).worksheet =
        s.worksheet ∧
      (uiStep s (.imageComplete t word fetched completed total)).cards = s.cards ∧
      uiStep s (.imageComplete t word fetched completed total) = s) ∧
    (∀ (s : AppState) (e : UIEvent), s.runToken ≤ (uiStep s e).runToken) := by
  constructor
  · intro s t word fetched completed total hlt
    have hne : t ≠ s.runToken := Nat.ne_of_lt hlt
    have hstep : uiStep s (.imageComplete t word fetched completed total) = s := by
      cases fetched with
      | ok url => simp only [uiStep]; simp [hne]
      | error e => simp only [uiStep]; simp [hne]
    exact ⟨by rw [hstep], by rw [hstep], hstep⟩
  · intro s e
    cases e with
    | generateStart => exact Nat.le_succ _
    | textSuccess w c iw idg => exact Nat.le_refl _
    | textFailure msg => exact Nat.le_refl _
    | imageComplete t word fetched completed total =>
      simp only [uiStep]
      cases fetched with
      | ok url =>
        by_cases hne : t = s.runToken <;> by_cases hurl : url = "" <;>
          simp [hne, hurl, patchWordImageEverywhere]
      | error e =>
        by_cases hne : t = s.runToken <;> simp [hne]

/-- The App state before any generation. -/
def initialAppState : AppState :=
  { runToken := 0, worksheet := none, cards := none, isLoading := false,
    isHydrating := false, error := "", warning := "", warningDetails := "" }

/-- Cards for the duplicate-word worksheet, right column unshuffled. -/
def dupCards : Cards :=
  { left := [
      { id := "L-0-cat", pairIndex := 0, word := "cat", imageDataUrl := "",
        sideLeft := true },
      { id := "L-1-bat", pairIndex := 1, word := "bat", imageDataUrl := "",
        sideLeft := true }],
    right := [
      { id := "R-0-hat", pairIndex := 0, word := "hat", imageDataUrl := "",
        sideLeft := false },
      { id := "R-1-cat", pairIndex := 1, word := "cat", imageDataUrl := "",
        sideLeft := false }] }

/-- Run 1 then run 2: two generations issued back to back, the second's
draft installed. -/
def run2State : AppState :=
  uiStep (uiStep (uiStep (uiStep initialAppState .generateStart)
    (.textSuccess demoNormalized dupCards "" "")) .generateStart)
    (.textSuccess dupWorksheet dupCards "" "")

/-- C4 witness: completing run 1's job for "cat" after run 2 has begun
leaves run 2's draft untouched. -/
theorem stale_hydration_discarded_witness :
    run2State.runToken = 2 ∧
    (uiStep run2State
      (.imageComplete 1 "cat" (.ok "https://img.example/cat") 1 6)).worksheet =
      run2State.worksheet ∧
    (uiStep run2State
      (.imageComplete 1 "cat" (.ok "https://img.example/cat") 1 6)).cards =
      run2State.cards ∧
    run2State.runToken ≤ (uiStep run2State .generateStart).runToken := by
  have h := stale_hydration_discarded
  refine ⟨by decide, ?_, ?_, h.2 run2State .generateStart⟩
  · exact (h.1 run2State 1 "cat" (.ok "https://img.example/cat") 1 6 (by decide)).1
  · exact (h.1 run2State 1 "cat" (.ok "https://img.example/cat") 1 6 (by decide)).2.1

/-! ## SVG sanitizer -/

/-- A parsed XML node: an element with attributes and children, or text. -/
inductive XNode where
  | elem (tag : String) (attrs : List (String × String)) (children : List XNode)
  | text (content : String)

/-- The tag allow-list exactly as written in the source.  (Membership is
tested against lower-cased tag names, so the mixed-case "clipPath" entry
never matches.) -/
def svgTagAllowlist : List String :=
  ["svg", "g", "path", "circle", "ellipse", "rect", "line", "polyline",
   "polygon", "defs", "clipPath", "mask", "title", "desc"]

/-- The attribute strip of the tree walk: event handlers (names starting
with "on"), remote references (`href`/`xlink:href`), and style values
holding an external `url(...)` without a local fragment anchor. -/
def cleanAttrs (attrs : List (String × String)) : List (String × String) :=
  attrs.filter fun a =>
    let nameL := lowerStr a.1
    !(leadMatch "on".toList nameL.toList || nameL = "href" || nameL = "xlink:href" ||
      (strContains (lowerStr a.2) "url(" && !(strContains a.2 "#")))

/-- The tree walk and node removal applied to the descendants of the svg
root: a non-allow-listed element is removed with its whole subtree, an
allow-listed one keeps stripped attributes, text is untouched.  `fuel`
bounds the recursion depth; any value at least the tree depth is exact. -/
def pruneNodes : Nat → List XNode → List XNode
  | 0, _ => []
  | fuel + 1, l =>
    l.flatMap fun n =>
      match n with
      | .text s => [.text s]
      | .elem tag attrs children =>
        if svgTagAllowlist.contains (lowerStr tag) then
          [.elem tag (cleanAttrs attrs) (pruneNodes fuel children)]
        else []

/-- `getAttribute`, case-sensitive as in an XML document. -/
def attrLookup (attrs : List (String × String)) (name : String) : Option String :=
  (attrs.find? fun a => a.1 = name).map (·.2)

def removeAttr (attrs : List (String × String)) (name : String) :
    List (String × String) :=
  attrs.filter fun a => a.1 ≠ name

/-- `setAttribute`: replace in place or append. -/
def setAttr (attrs : List (String × String)) (name value : String) :
    List (String × String) :=
  if (attrs.find? fun a => a.1 = name).isSome then
    attrs.map fun a => if a.1 = name then (name, value) else a
  else attrs ++ [(name, value)]

/-- `s.split(/[\s,]+/)`: tokens between separator runs, keeping the empty
boundary tokens JavaScript produces. -/
def splitTokensGo (inSep : Bool) (acc : List Char) : List Char → List String
  | [] => [String.mk acc.reverse]
  | c :: rest =>
    if jsWs c || c = ',' then
      if inSep then splitTokensGo true acc rest
      else String.mk acc.reverse :: splitTokensGo true [] rest
    else splitTokensGo false (c :: acc) rest

structure SvgViewBox where
  x : ℚ
  y : ℚ
  width : ℚ
  height : ℚ
deriving DecidableEq, Repr

/-- `parseViewBox(value)`: four finite numbers with positive extent, or
the default frame. -/
def parseViewBox (value : Option String) : SvgViewBox :=
  match value with
  | none => ⟨0, 0, 100, 100⟩
  | some v =>
    match (splitTokensGo false [] (trimChars v.toList)).map jsNumberStr with
    | [some a, some b, some w, some h] =>
      if w ≤ 0 || h ≤ 0 then ⟨0, 0, 100, 100⟩ else ⟨a, b, w, h⟩
    | _ => ⟨0, 0, 100, 100⟩

/-- `getNumericAttribute(element, name, fallbackValue)`. -/
def getNumericAttribute (attrs : List (String × String)) (name : String)
    (fallbackValue : ℚ) : ℚ :=
  match attrLookup attrs name with
  | none => fallbackValue
  | some raw =>
    if trimChars raw.toList = [] then fallbackValue
    else match jsNumberStr raw with
      | some q => q
      | none => fallbackValue

/-- `isLikelyBackgroundRect(element, viewBox)` for an element already
selected as a rect: filled, essentially opaque, covering at least 95% of
the frame in both directions and anchored near the top-left. -/
def isLikelyBackgroundRect (attrs : List (String × String)) (vb : SvgViewBox) :
    Bool :=
  let stroke := lowerStr (jsTrim ((attrLookup attrs "stroke").getD ""))
  if stroke ≠ "" && stroke ≠ "none" then false
  else
    let fill := lowerStr (jsTrim ((attrLookup attrs "fill").getD ""))
    if fill = "" || fill = "none" || fill = "transparent" then false
    else if getNumericAttribute attrs "fill-opacity" 1 < (8 : ℚ) / 100 then false
    else
      let rectX := getNumericAttribute attrs "x" vb.x
      let rectY := getNumericAttribute attrs "y" vb.y
      let rectWidth := getNumericAttribute attrs "width" vb.width
      let rectHeight := getNumericAttribute attrs "height" vb.height
      if rectWidth ≤ 0 || rectHeight ≤ 0 then false
      else
        (vb.width * ((95 : ℚ) / 100) ≤ rectWidth) &&
        (vb.height * ((95 : ℚ) / 100) ≤ rectHeight) &&
        (rectX ≤ vb.x + vb.width * ((5 : ℚ) / 100)) &&
        (rectY ≤ vb.y + vb.height * ((5 : ℚ) / 100))

/-- The background-rectangle removal pass: every descendant rect matching
the heuristic is removed. -/
def removeBgRects : Nat → SvgViewBox → List XNode → List XNode
  | 0, _, _ => []
  | fuel + 1, vb, l =>
    l.flatMap fun n =>
      match n with
      | .text s => [.text s]
      | .elem tag attrs children =>
        if tag = "rect" && isLikelyBackgroundRect attrs vb then []
        else [.elem tag attrs (removeBgRects fuel vb children)]

/-- Input to the sanitizer as seen after the browser's DOMParser: the raw
value was not a string containing "<svg", or parsing produced a
parsererror document, or a document with a root element. -/
inductive SvgParseInput where
  | notSvgString
  | parseFailed
  | parsed (rootTag : String) (rootAttrs : List (String × String))
      (children : List XNode)

/-- The sanitizer's serialized output: the fixed placeholder constant, or
the serialization of the cleaned tree. -/
inductive SvgOut where
  | fallbackMarkup
  | tree (rootTag : String) (rootAttrs : List (String × String))
      (children : List XNode)

def isFallback : SvgOut → Bool
  | .fallbackMarkup => true
  | .tree _ _ _ => false

def rootAttrsOf : SvgOut → List (String × String)
  | .fallbackMarkup => []
  | .tree _ attrs _ => attrs

/-- `sanitizeSvg(rawSvg)` over parsed input.  The TreeWalker is created on
the root and advanced with `nextNode()`, which never yields the root
itself: only the descendants pass through the attribute strip and the
allow-list pruning, while the root keeps every attribute except the
width/height removal and the xmlns/viewBox writes. -/
def sanitizeSvgModel (fuel : Nat) (input : SvgParseInput) : SvgOut :=
  match input with
  | .notSvgString => .fallbackMarkup
  | .parseFailed => .fallbackMarkup
  | .parsed rootTag rootAttrs children =>
    if lowerStr rootTag ≠ "svg" then .fallbackMarkup
    else
      let cleanedChildren := pruneNodes fuel children
      let a1 := removeAttr (removeAttr rootAttrs "width") "height"
      let a2 := setAttr a1 "xmlns" "http://www.w3.org/2000/svg"
      let a3 := match attrLookup a2 "viewBox" with
        | some v => if v = "" then setAttr a2 "viewBox" "0 0 100 100" else a2
        | none => setAttr a2 "viewBox" "0 0 100 100"
      let vb := parseViewBox (attrLookup a3 "viewBox")
      .tree rootTag a3 (removeBgRects fuel vb cleanedChildren)

/-- A parsed `<svg onload="alert(1)"><circle r="4"/></svg>`. -/
def badSvgInput : SvgParseInput :=
  .parsed "svg" [("onload", "alert(1)")] [.elem "circle" [("r", "4")] []]

/-- C9: the sanitizer's tree walk never visits the root element, so an
event-handler attribute on the svg root itself survives sanitization —
the claimed property fails on this input — while the fallback half of the
claim (non-vector, unparsable, or non-svg-rooted input yields exactly the
placeholder) does hold. -/
theorem sanitizeSvg_keeps_root_event_attr :
    ("onload", "alert(1)") ∈ rootAttrsOf (sanitizeSvgModel 8 badSvgInput) ∧
    isFallback (sanitizeSvgModel 8 .notSvgString) = true ∧
    isFallback (sanitizeSvgModel 8 .parseFailed) = true ∧
    isFallback (sanitizeSvgModel 8 (.parsed "div" [] [])) = true := by
  refine ⟨?_, rfl, rfl, by decide⟩
  show ("onload", "alert(1)") ∈ rootAttrsOf (sanitizeSvgModel 8 badSvgInput)
  decide
